import Mathlib

/-!
# Verification of the OtiPDF (Cody PDF 1.0) conversion pipeline

Shallow embedding of `src/main.py`: the path uniquifier `_unique_path`,
the per-format converters, and the conversion worker `CodyPDF._worker`,
together with proofs and refutations of the specified properties.

A filesystem directory is modelled as an association list from file names to
opaque content tags (`Fs`); `Path.exists` is membership of the name.
All paths manipulated by a single converter call live in one directory
(`_unique_path` only rewrites the final name component via `with_name`),
so names relative to the destination directory suffice.
-/

namespace OtiPDF

/-! ## Decimal rendering of naturals

Python renders the collision counter with `f"{stem} ({i}){suf}"`; the decimal
rendering of `i` is Lean's `Nat.repr`.  The uniquifier's termination and
least-index property need injectivity of this rendering, proved here by a
valuation round trip over `Nat.toDigitsCore`. -/

/-- Value of a decimal digit character. -/
def digitVal (c : Char) : Nat := c.toNat - '0'.toNat

/-- Fold a list of decimal digit characters into the number they denote,
most significant first. -/
def decValAux (a : Nat) (l : List Char) : Nat :=
  l.foldl (fun a c => 10 * a + digitVal c) a

theorem decValAux_cons (a : Nat) (c : Char) (l : List Char) :
    decValAux a (c :: l) = decValAux (10 * a + digitVal c) l := rfl

theorem digitVal_digitChar (k : Nat) (h : k < 10) :
    digitVal (Nat.digitChar k) = k := by
  interval_cases k <;> rfl

theorem decValAux_toDigitsCore (fuel : Nat) :
    ∀ (n : Nat) (ds : List Char), n ≤ fuel →
      decValAux 0 (Nat.toDigitsCore 10 fuel n ds) = decValAux n ds := by
  induction fuel with
  | zero =>
    intro n ds hn
    have hn0 : n = 0 := Nat.le_zero.mp hn
    subst hn0
    simp [Nat.toDigitsCore, decValAux]
  | succ fuel ih =>
    intro n ds hn
    show decValAux 0
        (if n / 10 = 0 then Nat.digitChar (n % 10) :: ds
         else Nat.toDigitsCore 10 fuel (n / 10) (Nat.digitChar (n % 10) :: ds))
      = decValAux n ds
    have hmod : n % 10 < 10 := Nat.mod_lt _ (by decide)
    by_cases hdiv : n / 10 = 0
    · have hnlt : n < 10 := by omega
      rw [if_pos hdiv, decValAux_cons, digitVal_digitChar _ hmod]
      have : n % 10 = n := Nat.mod_eq_of_lt hnlt
      rw [this]
      norm_num
    · rw [if_neg hdiv]
      have hle : n / 10 ≤ fuel := by
        have h1 : n / 10 < n := Nat.div_lt_self (by omega) (by decide)
        omega
      rw [ih (n / 10) _ hle, decValAux_cons, digitVal_digitChar _ hmod,
          Nat.div_add_mod]

/-- The decimal valuation inverts `Nat.repr`: reading back the digit string of
`n` yields `n`. -/
theorem decValAux_repr (n : Nat) : decValAux 0 (Nat.repr n).data = n := by
  show decValAux 0 (Nat.toDigits 10 n).asString.data = n
  rw [List.asString]
  show decValAux 0 (Nat.toDigitsCore 10 (n + 1) n []) = n
  rw [decValAux_toDigitsCore (n + 1) n [] (Nat.le_succ n)]
  rfl

/-- Decimal rendering of naturals is injective. -/
theorem Nat_repr_injective : Function.Injective Nat.repr := by
  intro m n h
  have := decValAux_repr m
  rw [h, decValAux_repr n] at this
  exact this.symm

/-! ## Filesystem model and `_unique_path`

A directory is an association list from file names to opaque content tags.
`_unique_path` only rewrites the final name component (`Path.with_name`), so
it is modelled on the list of names present in the candidate's directory. -/

/-- Opaque content tag of a file. -/
abbrev Content := String

/-- A directory: file names with their contents. -/
abbrev Fs := List (String × Content)

/-- The set of names existing in a directory. -/
def fsNames (fs : Fs) : List String := fs.map Prod.fst

/-- The `pathlib` stem/suffix of a file name: the suffix starts at the last dot,
provided that dot is neither the first nor the last character
(CPython: `0 < i < len(name) - 1`). -/
def splitName (name : String) : String × String :=
  let l := name.data
  match l.reverse.findIdx? (· = '.') with
  | none => (name, "")
  | some j =>
    let i := l.length - 1 - j
    if 0 < i ∧ i < l.length - 1 then ((l.take i).asString, (l.drop i).asString)
    else (name, "")

/-- The candidate name `f"{stem} ({i}){suf}"` tried by `_unique_path`. -/
def mkCand (stem suf : String) (i : Nat) : String :=
  stem ++ " (" ++ Nat.repr i ++ ")" ++ suf

theorem mkCand_injective (stem suf : String) :
    Function.Injective (mkCand stem suf) := by
  intro i j h
  apply Nat_repr_injective
  apply String.ext
  have hd := congrArg String.data h
  simp only [mkCand, String.data_append, List.append_assoc] at hd
  have h1 := List.append_cancel_left hd
  have h2 := List.append_cancel_left h1
  exact List.append_cancel_right h2

/-- Among any `names.length + 1` consecutive candidate indices, at least one
candidate name is absent from `names` (pigeonhole, since the candidates are
pairwise distinct).  This is the termination argument for the `while` loop of
`_unique_path`. -/
theorem exists_free_cand (names : List String) (stem suf : String) (i0 : Nat) :
    ∃ k, k < names.length + 1 ∧ mkCand stem suf (i0 + k) ∉ names := by
  by_contra hall
  push_neg at hall
  have hmaps : ∀ x : Fin (names.length + 1),
      mkCand stem suf (i0 + x.val) ∈ names.toFinset := by
    intro x
    exact List.mem_toFinset.mpr (hall x.val x.isLt)
  have hinj : Function.Injective
      (fun x : Fin (names.length + 1) => mkCand stem suf (i0 + x.val)) := by
    intro x y hxy
    have := mkCand_injective stem suf hxy
    exact Fin.ext (by omega)
  have hcard : (Finset.univ : Finset (Fin (names.length + 1))).card
      ≤ names.toFinset.card :=
    Finset.card_le_card_of_injOn
      (fun x : Fin (names.length + 1) => mkCand stem suf (i0 + x.val))
      (fun x _ => hmaps x) (hinj.injOn)
  simp only [Finset.card_univ, Fintype.card_fin] at hcard
  have := List.toFinset_card_le names
  omega

/-- The `while` loop of `_unique_path`: starting at index `i`, return the
first candidate `f"{stem} ({i}){suf}"` not present in `names`.  `fuel` bounds
the number of iterations; the Python loop is unbounded, and
`searchFrom_isSome` below shows fuel `names.length + 1` never runs out. -/
def searchFrom (names : List String) (stem suf : String) :
    Nat → Nat → Option String
  | 0, _ => none
  | fuel + 1, i =>
    let test := mkCand stem suf i
    if test ∈ names then searchFrom names stem suf fuel (i + 1) else some test

/-- Model of `_unique_path` over the names in the candidate's directory: return the
name unchanged when free, otherwise the first `f"{stem} ({i}){suf}"` (from
`i = 1`) that is free. -/
def uniqueName (names : List String) (name : String) : Option String :=
  if name ∈ names then
    let s := splitName name
    searchFrom names s.1 s.2 (names.length + 1) 1
  else some name

theorem searchFrom_spec (names : List String) (stem suf : String) :
    ∀ (fuel i0 : Nat),
      (∃ k, k < fuel ∧ mkCand stem suf (i0 + k) ∉ names) →
      ∃ i, searchFrom names stem suf fuel i0 = some (mkCand stem suf i) ∧
        i0 ≤ i ∧ mkCand stem suf i ∉ names ∧
        ∀ j, i0 ≤ j → j < i → mkCand stem suf j ∈ names := by
  intro fuel
  induction fuel with
  | zero => intro i0 ⟨k, hk, _⟩; omega
  | succ fuel ih =>
    intro i0 ⟨k, hk, hfree⟩
    by_cases hmem : mkCand stem suf i0 ∈ names
    · have hk1 : k ≠ 0 := by
        intro h0; rw [h0, Nat.add_zero] at hfree; exact hfree hmem
      obtain ⟨i, hsearch, hle, hfree', hleast⟩ :=
        ih (i0 + 1) ⟨k - 1, by omega, by
          have : i0 + 1 + (k - 1) = i0 + k := by omega
          rw [this]; exact hfree⟩
      refine ⟨i, ?_, by omega, hfree', ?_⟩
      · simpa [searchFrom, hmem] using hsearch
      · intro j hj1 hj2
        rcases Nat.eq_or_lt_of_le hj1 with h | h
        · rw [← h]; exact hmem
        · exact hleast j h hj2
    · exact ⟨i0, by simp [searchFrom, hmem], Nat.le_refl _, hmem,
        fun j hj1 hj2 => absurd (Nat.lt_of_le_of_lt hj1 hj2) (lt_irrefl _)⟩

/-- The loop of `_unique_path` always terminates with a result when given
`names.length + 1` iterations of fuel. -/
theorem searchFrom_isSome (names : List String) (stem suf : String) (i0 : Nat) :
    ∃ i, searchFrom names stem suf (names.length + 1) i0
        = some (mkCand stem suf i) ∧
      i0 ≤ i ∧ mkCand stem suf i ∉ names ∧
      ∀ j, i0 ≤ j → j < i → mkCand stem suf j ∈ names :=
  searchFrom_spec names stem suf (names.length + 1) i0
    (exists_free_cand names stem suf i0)

theorem uniqueName_total (names : List String) (name : String) :
    ∃ y, uniqueName names name = some y := by
  by_cases hmem : name ∈ names
  · obtain ⟨i, hs, -, -, -⟩ :=
      searchFrom_isSome names (splitName name).1 (splitName name).2 1
    exact ⟨_, by simp only [uniqueName, if_pos hmem]; exact hs⟩
  · exact ⟨name, by simp [uniqueName, hmem]⟩

/-- C4: if the candidate name is free the uniquifier returns it unchanged;
if it exists, the result is `f"{stem} ({i}){suf}"` in the same directory for
the smallest `i ≥ 1` whose name is free; and the returned name never exists
at call time. -/
theorem C4_unique_path_spec (names : List String) (name : String) :
    (name ∉ names → uniqueName names name = some name) ∧
    (name ∈ names → ∃ i, 1 ≤ i ∧
      uniqueName names name
        = some (mkCand (splitName name).1 (splitName name).2 i) ∧
      mkCand (splitName name).1 (splitName name).2 i ∉ names ∧
      ∀ j, 1 ≤ j → j < i →
        mkCand (splitName name).1 (splitName name).2 j ∈ names) ∧
    (∀ y, uniqueName names name = some y → y ∉ names) := by
  by_cases hmem : name ∈ names
  · obtain ⟨i, hs, hle, hfree, hleast⟩ :=
      searchFrom_isSome names (splitName name).1 (splitName name).2 1
    have huq : uniqueName names name
        = some (mkCand (splitName name).1 (splitName name).2 i) := by
      simp only [uniqueName, if_pos hmem]; exact hs
    refine ⟨fun h => absurd hmem h, fun _ => ⟨i, hle, huq, hfree, hleast⟩, ?_⟩
    intro y hy
    rw [huq] at hy
    injection hy with hy
    rw [← hy]
    exact hfree
  · have huq : uniqueName names name = some name := by
      simp [uniqueName, hmem]
    refine ⟨fun _ => huq, fun h => absurd h hmem, ?_⟩
    intro y hy
    rw [huq] at hy
    injection hy with hy
    rw [← hy]
    exact hmem

/-- Witness for `C4_unique_path_spec`: concrete evaluation with a colliding
candidate; the first free index is 2 because `foo (1).pdf` is also taken. -/
theorem C4_unique_path_spec_witness :
    ∃ i, 1 ≤ i ∧
      uniqueName ["foo.pdf", "foo (1).pdf", "bar.txt"] "foo.pdf"
        = some (mkCand (splitName "foo.pdf").1 (splitName "foo.pdf").2 i) ∧
      mkCand (splitName "foo.pdf").1 (splitName "foo.pdf").2 i
        ∉ ["foo.pdf", "foo (1).pdf", "bar.txt"] ∧
      ∀ j, 1 ≤ j → j < i →
        mkCand (splitName "foo.pdf").1 (splitName "foo.pdf").2 j
          ∈ ["foo.pdf", "foo (1).pdf", "bar.txt"] :=
  (C4_unique_path_spec ["foo.pdf", "foo (1).pdf", "bar.txt"] "foo.pdf").2.1
    (by decide)

/-- Total version of the uniquifier (the loop never fails, `uniqueName_total`);
used by the converter models. -/
def uniqueNameD (names : List String) (name : String) : String :=
  (uniqueName names name).getD name

theorem uniqueName_eq_some (names : List String) (name : String) :
    uniqueName names name = some (uniqueNameD names name) := by
  obtain ⟨y, hy⟩ := uniqueName_total names name
  rw [uniqueNameD, hy]
  rfl

/-- The name returned by the uniquifier never exists at call time. -/
theorem uniqueNameD_not_mem (names : List String) (name : String) :
    uniqueNameD names name ∉ names := by
  by_cases hmem : name ∈ names
  · obtain ⟨i, hs, -, hfree, -⟩ :=
      searchFrom_isSome names (splitName name).1 (splitName name).2 1
    have huq : uniqueName names name
        = some (mkCand (splitName name).1 (splitName name).2 i) := by
      simp only [uniqueName, if_pos hmem]; exact hs
    have := uniqueName_eq_some names name
    rw [huq] at this
    injection this with this
    rw [← this]
    exact hfree
  · have huq : uniqueName names name = some name := by simp [uniqueName, hmem]
    have := uniqueName_eq_some names name
    rw [huq] at this
    injection this with this
    rw [← this]
    exact hmem

/-! ## Filesystem operations -/

/-- Content of a file, if present. -/
def fsLookup (fs : Fs) (name : String) : Option Content :=
  match fs with
  | [] => none
  | (n, c) :: t => if n = name then some c else fsLookup t name

/-- Delete a file if present (`Path.unlink(missing_ok=True)` semantics on the
modelled calls). -/
def fsRemove (fs : Fs) (name : String) : Fs :=
  fs.filter (fun e => e.1 != name)

/-- Write a file, replacing any existing file of that name (`open(..., "wb")`
and `Path.write_text` semantics). -/
def fsWrite (fs : Fs) (name : String) (c : Content) : Fs :=
  (name, c) :: fsRemove fs name

/-- Model of `Path.rename`: move the content of `old` to `new` (replacing `new` if it
exists).  A missing `old` is modelled as a no-op; on the modelled call sites
`old` was just written, so this branch is unreachable. -/
def fsRename (fs : Fs) (old new : String) : Fs :=
  match fsLookup fs old with
  | some c => fsWrite (fsRemove fs old) new c
  | none => fs

theorem fsNames_fsRemove_not_mem (fs : Fs) (name : String) :
    name ∉ fsNames (fsRemove fs name) := by
  intro hmem
  simp only [fsNames, fsRemove, List.mem_map] at hmem
  obtain ⟨e, he, hname⟩ := hmem
  rw [List.mem_filter] at he
  have := he.2
  rw [hname] at this
  simp at this

/-! ## Converter models

Each converter works inside one destination directory `fs`.  External
collaborators (img2pdf, docx2pdf, LibreOffice `soffice`, pdfkit/wkhtmltopdf)
are oracles: an environment records their availability, whether the call
succeeds, and the content they produce.  A converter returns the directory
after the call and either the produced file's name or the raised message. -/

/-- Outcome of a converter: the resulting directory state, and either the
produced PDF's name or the exception message. -/
abbrev ConvResult := Fs × Except String String

/-- Oracle for `img2pdf.convert`. -/
structure ImgEnv where
  succeeds : Bool
  content : Content
deriving DecidableEq

/-- Model of `convert_image` (src lines 85-89): uniquify `f"{src.stem}.pdf"`, open the
target for writing, write the img2pdf output.  The target file is created by
`open(dest, "wb")` before `img2pdf.convert` runs, so a failing conversion
leaves an empty target behind. -/
def convert_image (env : ImgEnv) (fs : Fs) (stem : String) : ConvResult :=
  let dest := uniqueNameD (fsNames fs) (stem ++ ".pdf")
  if env.succeeds then (fsWrite fs dest env.content, .ok dest)
  else (fsWrite fs dest "", .error "img2pdf")

/-- Oracle for the external suite / docx2pdf used by `convert_office` and
`convert_odf`. -/
structure OfficeEnv where
  /-- Whether `src.suffix.lower() == ".docx" and docx2pdf_mod` -/
  docxAvailable : Bool
  /-- Whether `docx2pdf_mod.convert` does not raise -/
  docxSucceeds : Bool
  docxContent : Content
  /-- Result of `shutil.which("soffice")` -/
  sofficeAvailable : Bool
  /-- the `soffice --headless --convert-to pdf` subprocess exits 0 -/
  sofficeSucceeds : Bool
  sofficeContent : Content
deriving DecidableEq

/-- Model of `convert_office` (src lines 102-113): uniquify `f"{src.stem}.pdf"`; try
docx2pdf (which writes directly to the uniquified target); otherwise run
`soffice --convert-to pdf --outdir dest_dir`, which writes its output at the
suite's default name `f"{src.stem}.pdf"` (replacing any existing file of that
name), then rename that default output to the uniquified target when the two
differ. -/
def convert_office (env : OfficeEnv) (fs : Fs) (stem : String) : ConvResult :=
  let dest := uniqueNameD (fsNames fs) (stem ++ ".pdf")
  if env.docxAvailable ∧ env.docxSucceeds then
    (fsWrite fs dest env.docxContent, .ok dest)
  else if env.sofficeAvailable then
    if env.sofficeSucceeds then
      let final := stem ++ ".pdf"
      let fs1 := fsWrite fs final env.sofficeContent
      if final ≠ dest then (fsRename fs1 final dest, .ok dest)
      else (fs1, .ok dest)
    else (fs, .error "CalledProcessError")
  else (fs, .error "LibreOffice/Word non disponible.")

/-- Model of `convert_odf` (src lines 115-122): the soffice path of `convert_office`
without the docx2pdf fallback; fails first when soffice is unavailable. -/
def convert_odf (env : OfficeEnv) (fs : Fs) (stem : String) : ConvResult :=
  if ¬env.sofficeAvailable then (fs, .error "LibreOffice requis pour ODF.")
  else
    let dest := uniqueNameD (fsNames fs) (stem ++ ".pdf")
    if env.sofficeSucceeds then
      let final := stem ++ ".pdf"
      let fs1 := fsWrite fs final env.sofficeContent
      if final ≠ dest then (fsRename fs1 final dest, .ok dest)
      else (fs1, .ok dest)
    else (fs, .error "CalledProcessError")

/-- Oracle for pdfkit / wkhtmltopdf. -/
structure HtmlEnv where
  /-- Whether `pdfkit_mod` imported and `wkhtmltopdf` is on PATH -/
  available : Bool
  /-- Whether `pdfkit.from_file` does not raise -/
  succeeds : Bool
  content : Content
deriving DecidableEq

/-- Model of `convert_html` (src lines 124-128): guard on the renderer, uniquify
`f"{src.stem}.pdf"` from the source file's name, render into it. -/
def convert_html (env : HtmlEnv) (fs : Fs) (srcName : String) : ConvResult :=
  if ¬env.available then (fs, .error "wkhtmltopdf manquant")
  else
    let dest := uniqueNameD (fsNames fs) ((splitName srcName).1 ++ ".pdf")
    if env.succeeds then (fsWrite fs dest env.content, .ok dest)
    else (fs, .error "pdfkit")

/-- Model of `convert_md` (src lines 130-136): guard on the renderer, write the
rendered HTML to the sibling file `f"_{src.stem}.html"` (plain `write_text`,
no uniquification), delegate to `convert_html` on that temporary file, then
`tmp.unlink(missing_ok=True)`.  The unlink is only reached when the delegate
returns normally; a raising delegate propagates with the temporary file still
in place. -/
def convert_md (env : HtmlEnv) (fs : Fs) (stem : String)
    (htmlContent : Content) : ConvResult :=
  if ¬env.available then (fs, .error "wkhtmltopdf manquant")
  else
    let tmp := "_" ++ stem ++ ".html"
    let fs1 := fsWrite fs tmp htmlContent
    match convert_html env fs1 tmp with
    | (fs2, .ok dest) => (fsRemove fs2 tmp, .ok dest)
    | (fs2, .error e) => (fs2, .error e)

/-- Model of `convert_text` (src lines 91-100): uniquify `f"{src.stem}.pdf"` and write
the rendered pages there (the page layout itself is modelled separately by
`textPages`). -/
def convert_text (content : Content) (fs : Fs) (stem : String) : ConvResult :=
  let dest := uniqueNameD (fsNames fs) (stem ++ ".pdf")
  (fsWrite fs dest content, .ok dest)

/-- The `.pdf` pass-through of the worker (src lines 261-263): uniquify the
source's full name and copy the bytes. -/
def convert_passthrough (fs : Fs) (srcName : String) (bytes : Content) :
    ConvResult :=
  let dest := uniqueNameD (fsNames fs) srcName
  (fsWrite fs dest bytes, .ok dest)

theorem String_ne_empty_data {s : String} (h : s ≠ "") : s.data ≠ [] := by
  intro hd
  exact h (String.ext (by simp [hd]))

theorem findIdxDot_pdf (r : List Char) :
    List.findIdx? (fun c => c = '.') ('f' :: 'd' :: 'p' :: '.' :: r)
      = some 3 := rfl

theorem findIdxDot_html (r : List Char) :
    List.findIdx? (fun c => c = '.') ('l' :: 'm' :: 't' :: 'h' :: '.' :: r)
      = some 4 := rfl

/-- The `pathlib` rule splits `f"{stem}.pdf"` back into `stem` and `".pdf"` whenever
the stem is non-empty. -/
theorem splitName_pdf (stem : String) (h : stem ≠ "") :
    splitName (stem ++ ".pdf") = (stem, ".pdf") := by
  have hne := String_ne_empty_data h
  have hlen : 0 < stem.data.length := List.length_pos.mpr hne
  unfold splitName
  rw [show (stem ++ ".pdf").data = stem.data ++ ['.', 'p', 'd', 'f'] from rfl]
  simp only [List.reverse_append, List.reverse_cons, List.reverse_nil,
    List.nil_append, List.cons_append, List.append_assoc]
  rw [findIdxDot_pdf]
  have hcond : 0 < (stem.data ++ ['.', 'p', 'd', 'f']).length - 1 - 3 ∧
      (stem.data ++ ['.', 'p', 'd', 'f']).length - 1 - 3
        < (stem.data ++ ['.', 'p', 'd', 'f']).length - 1 := by
    simp only [List.length_append, List.length_cons, List.length_nil]
    omega
  simp only [if_pos hcond]
  have hidx : (stem.data ++ ['.', 'p', 'd', 'f']).length - 1 - 3
      = stem.data.length := by
    simp only [List.length_append, List.length_cons, List.length_nil]
    omega
  rw [hidx, List.take_left, List.drop_left]
  rfl

/-- The `pathlib` rule splits `f"{stem}.html"` back into `stem` and `".html"` whenever
the stem is non-empty. -/
theorem splitName_html (stem : String) (h : stem ≠ "") :
    splitName (stem ++ ".html") = (stem, ".html") := by
  have hne := String_ne_empty_data h
  have hlen : 0 < stem.data.length := List.length_pos.mpr hne
  unfold splitName
  rw [show (stem ++ ".html").data
      = stem.data ++ ['.', 'h', 't', 'm', 'l'] from rfl]
  simp only [List.reverse_append, List.reverse_cons, List.reverse_nil,
    List.nil_append, List.cons_append, List.append_assoc]
  rw [findIdxDot_html]
  have hcond : 0 < (stem.data ++ ['.', 'h', 't', 'm', 'l']).length - 1 - 4 ∧
      (stem.data ++ ['.', 'h', 't', 'm', 'l']).length - 1 - 4
        < (stem.data ++ ['.', 'h', 't', 'm', 'l']).length - 1 := by
    simp only [List.length_append, List.length_cons, List.length_nil]
    omega
  simp only [if_pos hcond]
  have hidx : (stem.data ++ ['.', 'h', 't', 'm', 'l']).length - 1 - 4
      = stem.data.length := by
    simp only [List.length_append, List.length_cons, List.length_nil]
    omega
  rw [hidx, List.take_left, List.drop_left]
  rfl

/-- A name produced by uniquifying `f"{stem}.pdf"`: either the candidate
itself or `f"{stem} ({N}).pdf"` with `N ≥ 1`. -/
def pdfForm (stem dest : String) : Prop :=
  dest = stem ++ ".pdf" ∨ ∃ N, 1 ≤ N ∧ dest = mkCand stem ".pdf" N

theorem uniqueNameD_pdfForm (names : List String) (stem : String)
    (h : stem ≠ "") : pdfForm stem (uniqueNameD names (stem ++ ".pdf")) := by
  by_cases hmem : stem ++ ".pdf" ∈ names
  · right
    obtain ⟨i, hs, hle, -, -⟩ :=
      searchFrom_isSome names (splitName (stem ++ ".pdf")).1
        (splitName (stem ++ ".pdf")).2 1
    have huq : uniqueName names (stem ++ ".pdf")
        = some (mkCand (splitName (stem ++ ".pdf")).1
            (splitName (stem ++ ".pdf")).2 i) := by
      simp only [uniqueName, if_pos hmem]; exact hs
    have heq := uniqueName_eq_some names (stem ++ ".pdf")
    rw [huq] at heq
    injection heq with heq
    refine ⟨i, hle, ?_⟩
    rw [← heq, splitName_pdf stem h]
  · left
    have huq : uniqueName names (stem ++ ".pdf") = some (stem ++ ".pdf") := by
      simp [uniqueName, hmem]
    have heq := uniqueName_eq_some names (stem ++ ".pdf")
    rw [huq] at heq
    injection heq with heq
    exact heq.symm

theorem toDigitsCore_length_lt (fuel : Nat) :
    ∀ (n : Nat) (ds : List Char),
      ds.length < (Nat.toDigitsCore 10 (fuel + 1) n ds).length := by
  induction fuel with
  | zero =>
    intro n ds
    show ds.length < (if n / 10 = 0
        then Nat.digitChar (n % 10) :: ds
        else Nat.toDigitsCore 10 0 (n / 10)
          (Nat.digitChar (n % 10) :: ds)).length
    by_cases hdiv : n / 10 = 0 <;> simp [hdiv, Nat.toDigitsCore]
  | succ fuel ih =>
    intro n ds
    show ds.length < (if n / 10 = 0
        then Nat.digitChar (n % 10) :: ds
        else Nat.toDigitsCore 10 (fuel + 1) (n / 10)
          (Nat.digitChar (n % 10) :: ds)).length
    by_cases hdiv : n / 10 = 0
    · simp [hdiv]
    · rw [if_neg hdiv]
      have := ih (n / 10) (Nat.digitChar (n % 10) :: ds)
      simp only [List.length_cons] at this
      omega

theorem Nat_repr_length_pos (n : Nat) : 0 < (Nat.repr n).length := by
  show 0 < (Nat.toDigits 10 n).asString.length
  have h := toDigitsCore_length_lt n n []
  simp only [List.length_nil] at h
  exact h

theorem mkCand_length (stem suf : String) (N : Nat) :
    (mkCand stem suf N).length
      = stem.length + 2 + (Nat.repr N).length + 1 + suf.length := by
  simp [mkCand, String.length_append,
    show (" (" : String).length = 2 from rfl,
    show (")" : String).length = 1 from rfl]

/-! ## Claims C3, C6, C7 -/

/-- C3: the claim fails on the code.  With `report.pdf` already present in
the destination directory, the soffice path of `convert_office` uniquifies
its target to `report (1).pdf`, but the external suite writes its output at
the default name `report.pdf`, destroying the pre-existing file, which is
then renamed to the uniquified target.  After the call the original content
is gone. -/
theorem C3_office_clobbers_preexisting :
    fsLookup [("report.pdf", "OLD")] "report.pdf" = some "OLD" ∧
    convert_office ⟨false, false, "", true, true, "NEW"⟩
        [("report.pdf", "OLD")] "report"
      = ([("report (1).pdf", "NEW")], .ok "report (1).pdf") ∧
    fsLookup (convert_office ⟨false, false, "", true, true, "NEW"⟩
        [("report.pdf", "OLD")] "report").1 "report.pdf" = none :=
  ⟨rfl, rfl, rfl⟩

/-- C6 counterexample: when the delegated HTML conversion raises (renderer
present, `pdfkit.from_file` fails), `convert_md` propagates the exception
without reaching `tmp.unlink`, and the intermediate `_doc.html` remains on
disk — refuting cleanup "regardless of outcome". -/
theorem C6_md_tmp_left_on_failure :
    convert_md ⟨true, false, "PDF"⟩ [] "doc" "H"
      = ([("_doc.html", "H")], .error "pdfkit") ∧
    ("_" ++ "doc" ++ ".html")
      ∈ fsNames (convert_md ⟨true, false, "PDF"⟩ [] "doc" "H").1 :=
  ⟨rfl, by decide⟩

/-- C6 amended: the intermediate HTML file is deleted when the delegated
conversion returns successfully; when the delegate raises, `convert_md`
propagates the exception and the intermediate file remains on disk. -/
theorem C6_md_tmp_cleanup (env : HtmlEnv) (fs : Fs) (stem : String)
    (html : Content) :
    (∀ fs' dest, convert_md env fs stem html = (fs', .ok dest) →
      ("_" ++ stem ++ ".html") ∉ fsNames fs') ∧
    (env.available = true → env.succeeds = false →
      ("_" ++ stem ++ ".html")
        ∈ fsNames (convert_md env fs stem html).1) := by
  obtain ⟨av, succ, cont⟩ := env
  constructor
  · intro fs' dest hEq
    cases av
    · simp [convert_md] at hEq
    · cases succ
      · simp [convert_md, convert_html] at hEq
      · have hred : convert_md ⟨true, true, cont⟩ fs stem html
            = (fsRemove
                (fsWrite (fsWrite fs ("_" ++ stem ++ ".html") html)
                  (uniqueNameD
                    (fsNames (fsWrite fs ("_" ++ stem ++ ".html") html))
                    ((splitName ("_" ++ stem ++ ".html")).1 ++ ".pdf"))
                  cont)
                ("_" ++ stem ++ ".html"),
              .ok (uniqueNameD
                (fsNames (fsWrite fs ("_" ++ stem ++ ".html") html))
                ((splitName ("_" ++ stem ++ ".html")).1 ++ ".pdf"))) := rfl
        rw [hred] at hEq
        injection hEq with h1 h2
        rw [← h1]
        exact fsNames_fsRemove_not_mem _ _
  · intro hav hsucc
    cases av
    · exact absurd hav (by simp)
    · cases succ
      · simp only [convert_md, convert_html]
        rw [if_neg (by simp), if_neg (by simp), if_neg (by simp)]
        simp [fsNames, fsWrite]
      · exact absurd hsucc (by simp)

/-- Witness for `C6_md_tmp_cleanup`: a successful concrete run, where the
temporary file is indeed gone afterwards. -/
theorem C6_md_tmp_cleanup_witness :
    ("_" ++ "doc" ++ ".html") ∉ fsNames [("_doc.pdf", "P")] :=
  (C6_md_tmp_cleanup ⟨true, true, "P"⟩ [] "doc" "H").1
    [("_doc.pdf", "P")] "_doc.pdf" rfl

theorem if_pair_ok {c : Prop} [Decidable c] {A B : Fs} {x : String}
    {fs' : Fs} {dest : String}
    (hEq : (if c then (A, Except.ok (ε := String) x) else (B, Except.ok x))
      = (fs', Except.ok dest)) : dest = x := by
  split at hEq <;>
    (injection hEq with h1 h2
     injection h2 with h2
     exact h2.symm)

theorem underscore_append_ne (s : String) : ("_" ++ s) ≠ "" := by
  intro h
  have hd := congrArg String.data h
  rw [String.data_append, show ("_" : String).data = ['_'] from rfl] at hd
  simp at hd

/-- C7 counterexample: a successful Markdown conversion of source stem `doc`
produces `_doc.pdf` — the name of the intermediate rendering file's stem, not
`doc.pdf` nor any `doc (N).pdf`. -/
theorem C7_md_output_misnamed :
    convert_md ⟨true, true, "P"⟩ [] "doc" "H"
      = ([("_doc.pdf", "P")], .ok "_doc.pdf") ∧
    ¬ pdfForm "doc" "_doc.pdf" := by
  refine ⟨rfl, ?_⟩
  rintro (h | ⟨N, hN, h⟩)
  · exact absurd h (by decide)
  · have hlen := congrArg String.length h
    rw [mkCand_length] at hlen
    have := Nat_repr_length_pos N
    rw [show ("_doc.pdf" : String).length = 8 from rfl,
        show ("doc" : String).length = 3 from rfl,
        show (".pdf" : String).length = 4 from rfl] at hlen
    omega

/-- C7 amended: every successful conversion produces a PDF named
`f"{stem}.pdf"`, or `f"{stem} (N).pdf"` on collision — for the stem of the
file handed to the final rendering step.  For image, text, office, ODF, HTML
and pass-through sources that is the source's stem; for Markdown sources it
is the intermediate rendering file's stem `f"_{src.stem}"`, so the produced
PDF is `f"_{src.stem}.pdf"` (or `f"_{src.stem} (N).pdf"`). -/
theorem C7_output_naming (stem : String) (h : stem ≠ "") (fs : Fs)
    (ienv : ImgEnv) (oenv : OfficeEnv) (henv : HtmlEnv)
    (tcontent html : Content) :
    (∀ fs' dest, convert_image ienv fs stem = (fs', .ok dest) →
      pdfForm stem dest) ∧
    (∀ fs' dest, convert_text tcontent fs stem = (fs', .ok dest) →
      pdfForm stem dest) ∧
    (∀ fs' dest, convert_office oenv fs stem = (fs', .ok dest) →
      pdfForm stem dest) ∧
    (∀ fs' dest, convert_odf oenv fs stem = (fs', .ok dest) →
      pdfForm stem dest) ∧
    (∀ fs' dest, convert_html henv fs (stem ++ ".html") = (fs', .ok dest) →
      pdfForm stem dest) ∧
    (∀ fs' dest, convert_md henv fs stem html = (fs', .ok dest) →
      pdfForm ("_" ++ stem) dest) := by
  refine ⟨?_, ?_, ?_, ?_, ?_, ?_⟩
  · intro fs' dest hEq
    obtain ⟨s, c⟩ := ienv
    cases s
    · simp [convert_image] at hEq
    · simp only [convert_image, ite_true, if_pos] at hEq
      injection hEq with h1 h2
      injection h2 with h2
      rw [← h2]
      exact (uniqueNameD_pdfForm _ _ h)
  · intro fs' dest hEq
    simp only [convert_text] at hEq
    injection hEq with h1 h2
    injection h2 with h2
    rw [← h2]
    exact (uniqueNameD_pdfForm _ _ h)
  · intro fs' dest hEq
    obtain ⟨da, ds, dc, sa, ss, sc⟩ := oenv
    cases da <;> cases ds <;> cases sa <;> cases ss <;>
      simp only [convert_office, Bool.false_and, Bool.true_and,
        Bool.and_self, if_true, if_false, ite_true, ite_false,
        false_and, true_and, and_self, and_true, and_false,
        if_neg, if_pos, not_false_iff] at hEq <;>
      first
      | (injection hEq with h1 h2
         first
         | (injection h2 with h2
            rw [← h2]
            exact (uniqueNameD_pdfForm _ _ h))
         | injection h2)
      | (rw [if_pair_ok hEq]
         exact (uniqueNameD_pdfForm _ _ h))
  · intro fs' dest hEq
    obtain ⟨da, ds, dc, sa, ss, sc⟩ := oenv
    cases sa <;> cases ss <;>
      simp only [convert_odf, Bool.not_true, Bool.not_false,
        not_false_iff, not_true_eq_false, if_true, if_false,
        ite_true, ite_false] at hEq <;>
      first
      | (injection hEq with h1 h2
         injection h2)
      | (rw [if_pair_ok hEq]
         exact (uniqueNameD_pdfForm _ _ h))
  · intro fs' dest hEq
    obtain ⟨av, succ, c⟩ := henv
    cases av
    · simp [convert_html] at hEq
    · cases succ
      · simp [convert_html] at hEq
      · simp only [convert_html, Bool.not_true, not_true_eq_false,
          not_false_iff, ite_true, ite_false, if_pos, if_neg] at hEq
        injection hEq with h1 h2
        injection h2 with h2
        rw [← h2, splitName_html stem h]
        exact (uniqueNameD_pdfForm _ _ h)
  · intro fs' dest hEq
    obtain ⟨av, succ, c⟩ := henv
    cases av
    · simp [convert_md] at hEq
    · cases succ
      · simp [convert_md, convert_html] at hEq
      · have hred : convert_md ⟨true, true, c⟩ fs stem html
            = (fsRemove
                (fsWrite (fsWrite fs ("_" ++ stem ++ ".html") html)
                  (uniqueNameD
                    (fsNames (fsWrite fs ("_" ++ stem ++ ".html") html))
                    ((splitName ("_" ++ stem ++ ".html")).1 ++ ".pdf"))
                  c)
                ("_" ++ stem ++ ".html"),
              .ok (uniqueNameD
                (fsNames (fsWrite fs ("_" ++ stem ++ ".html") html))
                ((splitName ("_" ++ stem ++ ".html")).1 ++ ".pdf"))) := rfl
        rw [hred] at hEq
        injection hEq with h1 h2
        injection h2 with h2
        rw [← h2, show ("_" ++ stem ++ ".html") = ("_" ++ stem) ++ ".html"
            from rfl,
          splitName_html ("_" ++ stem) (underscore_append_ne stem)]
        exact (uniqueNameD_pdfForm _ _ (underscore_append_ne stem))

/-- Witness for `C7_output_naming`: the Markdown conjunct evaluated on a
concrete successful run. -/
theorem C7_output_naming_witness : pdfForm ("_" ++ "doc") "_doc.pdf" :=
  (C7_output_naming "doc" (by decide) [] ⟨true, "I"⟩
      ⟨false, false, "", true, true, "S"⟩ ⟨true, true, "P"⟩ "T" "H").2.2.2.2.2
    [("_doc.pdf", "P")] "_doc.pdf" rfl

/-! ## Text converter pipeline (`convert_text`, src lines 91-100)

`src.read_text(encoding="utf-8", errors="ignore")` decodes the bytes,
dropping undecodable sequences; the text is tab-expanded, split into lines
(`str.splitlines`), each line wrapped to 95 columns (`textwrap.wrap`, with
empty results replaced by a single blank segment `[" "]`), and the segments
laid out on A4 pages, breaking when the cursor passes the bottom margin.
Text is `List Char` (Python `len`/indexing count code points), page
coordinates are exact rationals (the float margin checks are far from any
tie, so the behaviour is identical). -/

/-- One continuation byte `0x80-0xBF`. -/
def contOk (b : Nat) : Bool := decide (0x80 ≤ b ∧ b ≤ 0xBF)

/-- Valid second byte of a three-byte sequence (excludes overlong encodings
for lead `0xE0` and surrogates for lead `0xED`). -/
def cont3Ok (b1 b2 : Nat) : Bool :=
  if b1 = 0xE0 then decide (0xA0 ≤ b2 ∧ b2 ≤ 0xBF)
  else if b1 = 0xED then decide (0x80 ≤ b2 ∧ b2 ≤ 0x9F)
  else contOk b2

/-- Valid second byte of a four-byte sequence (excludes overlong encodings
for lead `0xF0` and code points above `0x10FFFF` for lead `0xF4`). -/
def cont4Ok (b1 b2 : Nat) : Bool :=
  if b1 = 0xF0 then decide (0x90 ≤ b2 ∧ b2 ≤ 0xBF)
  else if b1 = 0xF4 then decide (0x80 ≤ b2 ∧ b2 ≤ 0x8F)
  else contOk b2

/-- UTF-8 decoding with `errors="ignore"`: a total function that decodes
valid sequences and drops invalid bytes instead of raising.  (CPython's
handler may skip several bytes of one ill-formed sequence at once; this
model resumes after the offending lead byte.  The properties proved here do
not depend on how many bytes an error skips.)  Fuel-based for kernel
evaluability; each step consumes at least one byte, so fuel `l.length + 1`
(as supplied by `decodeUtf8Ignore`) never runs out. -/
def decodeUtf8IgnoreF : Nat → List Nat → List Char
  | 0, _ => []
  | _, [] => []
  | fuel + 1, b1 :: rest =>
    if b1 < 0x80 then Char.ofNat b1 :: decodeUtf8IgnoreF fuel rest
    else if 0xC2 ≤ b1 ∧ b1 ≤ 0xDF then
      match rest with
      | b2 :: rest2 =>
        if contOk b2 then
          Char.ofNat ((b1 - 0xC0) * 64 + (b2 - 0x80)) :: decodeUtf8IgnoreF fuel rest2
        else decodeUtf8IgnoreF fuel (b2 :: rest2)
      | [] => []
    else if 0xE0 ≤ b1 ∧ b1 ≤ 0xEF then
      match rest with
      | b2 :: b3 :: rest3 =>
        if cont3Ok b1 b2 && contOk b3 then
          Char.ofNat ((b1 - 0xE0) * 4096 + (b2 - 0x80) * 64 + (b3 - 0x80))
            :: decodeUtf8IgnoreF fuel rest3
        else decodeUtf8IgnoreF fuel (b2 :: b3 :: rest3)
      | _ => []
    else if 0xF0 ≤ b1 ∧ b1 ≤ 0xF4 then
      match rest with
      | b2 :: b3 :: b4 :: rest4 =>
        if cont4Ok b1 b2 && contOk b3 && contOk b4 then
          Char.ofNat ((b1 - 0xF0) * 262144 + (b2 - 0x80) * 4096
              + (b3 - 0x80) * 64 + (b4 - 0x80))
            :: decodeUtf8IgnoreF fuel rest4
        else decodeUtf8IgnoreF fuel (b2 :: b3 :: b4 :: rest4)
      | _ => []
    else decodeUtf8IgnoreF fuel rest

def decodeUtf8Ignore (l : List Nat) : List Char :=
  decodeUtf8IgnoreF (l.length + 1) l

/-- Model of `txt.replace("\t", "    ")`: each tab becomes four spaces (single-code
point pattern, so `str.replace` is pointwise substitution). -/
def replaceTabs (l : List Char) : List Char :=
  l.flatMap (fun c => if c = '\t' then [' ', ' ', ' ', ' '] else [c])

/-- The `str.splitlines` line-break characters. -/
def isLineBreak (c : Char) : Bool :=
  decide (c.toNat = 10 ∨ c.toNat = 13 ∨ c.toNat = 11 ∨ c.toNat = 12 ∨
    c.toNat = 28 ∨ c.toNat = 29 ∨ c.toNat = 30 ∨ c.toNat = 133 ∨
    c.toNat = 8232 ∨ c.toNat = 8233)

/-- Model of `str.splitlines`: split at line-break characters (pairing `\r\n`),
without a trailing empty line for a trailing terminator.  Fuel-based for
kernel evaluability; each step consumes at least one character, so fuel
`l.length + 1` (as supplied by `pySplitlines`) never runs out. -/
def pySplitlinesF : Nat → List Char → List (List Char)
  | 0, _ => []
  | _, [] => []
  | fuel + 1, l =>
    let line := l.takeWhile (fun c => ¬ isLineBreak c)
    match l.dropWhile (fun c => ¬ isLineBreak c) with
    | '\r' :: '\n' :: rest2 => line :: pySplitlinesF fuel rest2
    | _ :: rest2 => line :: pySplitlinesF fuel rest2
    | [] => [line]

def pySplitlines (l : List Char) : List (List Char) :=
  pySplitlinesF (l.length + 1) l

/-- After tab expansion and line splitting the only whitespace character
left in a line is the space, so `textwrap`'s chunks are maximal runs of
spaces or of non-spaces. -/
def isSpaceChar (c : Char) : Bool := c = ' '

def isSpaceChunk (ch : List Char) : Bool := ch.all isSpaceChar

/-- Split a line into `textwrap`'s chunks: maximal runs of spaces and
non-spaces, in order.  (`break_on_hyphens` would additionally split word
chunks after hyphens; the properties proved here do not depend on chunk
granularity.) -/
def chunkify : List Char → List (List Char)
  | [] => []
  | c :: rest =>
    match chunkify rest with
    | [] => [[c]]
    | g :: gs =>
      match g with
      | [] => [c] :: g :: gs
      | d :: _ =>
        if isSpaceChar c = isSpaceChar d then (c :: g) :: gs
        else [c] :: g :: gs

/-- The inner `while` of `textwrap._wrap_chunks`: greedily take chunks while
they fit in the remaining width; return the taken chunks and the rest. -/
def takeFit (width : Nat) : Nat → List (List Char) →
    List (List Char) × List (List Char)
  | _, [] => ([], [])
  | cur, ch :: rest =>
    if cur + ch.length ≤ width then
      let tr := takeFit width (cur + ch.length) rest
      (ch :: tr.1, tr.2)
    else ([], ch :: rest)

/-- Drop one leading whitespace chunk, but not on the first line
(`if self.drop_whitespace and chunks[-1].strip() == '' and lines`). -/
def dropLeadWs (notFirst : Bool) (cs : List (List Char)) :
    List (List Char) :=
  match cs with
  | ch :: rest => if notFirst ∧ isSpaceChunk ch then rest else cs
  | [] => []

/-- Model of `_handle_long_word` with `break_long_words`: when the next chunk is
longer than the width, chop off what still fits on the current line
(at least one character when the line is empty). -/
def breakLong (width curLen : Nat)
    (tf : List (List Char) × List (List Char)) :
    List (List Char) × List (List Char) :=
  match tf.2 with
  | ch :: rtail =>
    if width < ch.length then
      let spaceLeft := if width < 1 then 1 else width - curLen
      (tf.1 ++ [ch.take spaceLeft], ch.drop spaceLeft :: rtail)
    else tf
  | [] => tf

/-- Drop one trailing whitespace chunk
(`if ... cur_line and cur_line[-1].strip() == '': del cur_line[-1]`). -/
def dropTrailWs (taken : List (List Char)) : List (List Char) :=
  match taken.getLast? with
  | some last => if isSpaceChunk last then taken.dropLast else taken
  | none => taken

/-- One iteration of `textwrap._wrap_chunks`'s outer loop: drop a leading
whitespace chunk (except on the first line), greedily fill the line, break a
long word that does not fit (`break_long_words`), drop a trailing whitespace
chunk, and emit the line if non-empty. -/
def wrapStep (width : Nat) (notFirst : Bool) (cs : List (List Char)) :
    Option (List Char) × List (List Char) :=
  let cs1 := dropLeadWs notFirst cs
  let tf := takeFit width 0 cs1
  let t2 := breakLong width ((tf.1.map List.length).sum) tf
  let taken3 := dropTrailWs t2.1
  (if taken3 = [] then none else some taken3.flatten, t2.2)

/-- Fuel bound for the wrap loop: total characters plus number of chunks. -/
def chunksMeasure (cs : List (List Char)) : Nat :=
  (cs.map List.length).sum + cs.length

/-- The outer loop of `textwrap._wrap_chunks`.  Fuel-based for kernel
evaluability; every iteration consumes a chunk or shortens the head chunk,
so fuel `chunksMeasure cs + 1` (as supplied by `pyWrap`) never runs out. -/
def wrapChunksF (width : Nat) : Nat → List (List Char) → Bool →
    List (List Char)
  | 0, _, _ => []
  | _, [], _ => []
  | fuel + 1, c :: cs, notFirst =>
    let sr := wrapStep width notFirst (c :: cs)
    match sr.1 with
    | some line => line :: wrapChunksF width fuel sr.2 true
    | none => wrapChunksF width fuel sr.2 notFirst

/-- Model of `textwrap.wrap(line, width)` with its default options. -/
def pyWrap (width : Nat) (line : List Char) : List (List Char) :=
  let cs := chunkify line
  wrapChunksF width (chunksMeasure cs + 1) cs false

/-- Model of `textwrap.wrap(line, 95) or [" "]` (src line 97). -/
def wrapOrBlank (width : Nat) (line : List Char) : List (List Char) :=
  let ls := pyWrap width line
  if ls = [] then [[' ']] else ls

/-- The segments drawn by `convert_text`, in drawing order. -/
def renderSegs (txt : List Char) : List (List Char) :=
  (pySplitlines (replaceTabs txt)).flatMap (wrapOrBlank 95)

/-- Height of an A4 page in points (`297 * mm`, exact rational). -/
def A4H : ℚ := 297 * 72 / (254 / 10)

/-- The drawing loop of `convert_text`: segments drawn top-down with leading
14, a page break (`showPage`) when the cursor passes the 72pt bottom margin;
`save` emits the final page when it has content. -/
def layoutLoop : List (List Char) → ℚ → List (List Char) →
    List (List (List Char))
  | [], _, cur => if cur = [] then [] else [cur]
  | seg :: rest, y, cur =>
    if y < 72 then cur :: layoutLoop rest (A4H - 72 - 14) [seg]
    else layoutLoop rest (y - 14) (cur ++ [seg])

/-- The pages produced by `convert_text` for the given segments. -/
def textPages (segs : List (List Char)) : List (List (List Char)) :=
  layoutLoop segs (A4H - 72) []

/-- The full page layout `convert_text` produces from raw file bytes. -/
def convert_text_pages (bytes : List Nat) : List (List (List Char)) :=
  textPages (renderSegs (decodeUtf8Ignore bytes))

/-! ### Properties of the text pipeline -/

theorem takeFit_cons (width cur : Nat) (ch : List Char)
    (rest : List (List Char)) :
    takeFit width cur (ch :: rest)
      = if cur + ch.length ≤ width then
          (ch :: (takeFit width (cur + ch.length) rest).1,
            (takeFit width (cur + ch.length) rest).2)
        else ([], ch :: rest) := rfl

theorem takeFit_sum_le (width : Nat) :
    ∀ (l : List (List Char)) (cur : Nat),
      ((takeFit width cur l).1.map List.length).sum + cur ≤ width ∨
      (takeFit width cur l).1 = [] := by
  intro l
  induction l with
  | nil => intro cur; right; rfl
  | cons ch rest ih =>
    intro cur
    rw [takeFit_cons]
    by_cases hfit : cur + ch.length ≤ width
    · left
      rw [if_pos hfit]
      rcases ih (cur + ch.length) with h | h
      · simp only [List.map_cons, List.sum_cons]
        omega
      · simp only [List.map_cons, List.sum_cons, h]
        simp only [List.map_nil, List.sum_nil]
        omega
    · right
      rw [if_neg hfit]

theorem map_sum_dropLast_le (l : List (List Char)) :
    (l.dropLast.map List.length).sum ≤ (l.map List.length).sum := by
  induction l with
  | nil => simp
  | cons a t ih =>
    cases t with
    | nil => simp
    | cons b t2 =>
      simp only [List.dropLast_cons₂, List.map_cons, List.sum_cons]
      simp only [List.map_cons, List.sum_cons] at ih
      omega

theorem dropTrailWs_sum_le (l : List (List Char)) :
    ((dropTrailWs l).map List.length).sum ≤ (l.map List.length).sum := by
  unfold dropTrailWs
  match h : l.getLast? with
  | none => exact Nat.le_refl _
  | some last =>
    by_cases hsp : isSpaceChunk last = true
    · simp only [hsp, if_true, ite_true]
      exact map_sum_dropLast_le l
    · simp only [hsp]
      simp [hsp]

/-- Whatever `wrapStep` emits fits in the width (for positive width): the
greedy fill stays within the width and the long-word break adds exactly the
remaining space. -/
theorem wrapStep_line_le (width : Nat) (hw : 1 ≤ width) (notFirst : Bool)
    (cs : List (List Char)) (line : List Char)
    (h : (wrapStep width notFirst cs).1 = some line) :
    line.length ≤ width := by
  unfold wrapStep at h
  dsimp only at h
  set cs1 := dropLeadWs notFirst cs with hcs1
  set tf := takeFit width 0 cs1 with htf
  set t2 := breakLong width ((tf.1.map List.length).sum) tf with ht2
  set taken3 := dropTrailWs t2.1 with htaken3
  by_cases hne : taken3 = []
  · rw [if_pos hne] at h
    exact absurd h (by simp)
  · rw [if_neg hne] at h
    injection h with h
    have hsum1 : (tf.1.map List.length).sum ≤ width := by
      rcases takeFit_sum_le width cs1 0 with h1 | h1
      · rw [← htf] at h1
        omega
      · rw [htf, h1]
        simp only [List.map_nil, List.sum_nil]
        omega
    have hsum2 : (t2.1.map List.length).sum ≤ width := by
      rw [ht2]
      unfold breakLong
      match hrest : tf.2 with
      | [] => exact hsum1
      | ch :: rtail =>
        by_cases hlong : width < ch.length
        · simp only [hlong, if_pos, ite_true]
          rw [List.map_append, List.sum_append]
          simp only [List.map_cons, List.map_nil, List.sum_cons,
            List.sum_nil, List.length_take]
          have hsl : (if width < 1 then 1 else
              width - (tf.1.map List.length).sum)
            = width - (tf.1.map List.length).sum := by
            rw [if_neg (by omega)]
          rw [hsl]
          have : min (width - (tf.1.map List.length).sum) ch.length
              ≤ width - (tf.1.map List.length).sum := Nat.min_le_left _ _
          omega
        · simp only [hlong, ite_false, if_neg]
          exact hsum1
    have hsum3 : (taken3.map List.length).sum ≤ width :=
      Nat.le_trans (dropTrailWs_sum_le t2.1) hsum2
    rw [← h]
    rw [List.length_flatten]
    exact hsum3

/-- All lines produced by the wrap loop fit in the width, for any fuel. -/
theorem wrapChunksF_le (width : Nat) (hw : 1 ≤ width) :
    ∀ (fuel : Nat) (cs : List (List Char)) (notFirst : Bool),
      ∀ line ∈ wrapChunksF width fuel cs notFirst, line.length ≤ width := by
  intro fuel
  induction fuel with
  | zero => intro cs notFirst line hmem; exact absurd hmem (by simp [wrapChunksF])
  | succ fuel ih =>
    intro cs notFirst line hmem
    match cs with
    | [] => exact absurd hmem (by simp [wrapChunksF])
    | c :: cs' =>
      rw [show wrapChunksF width (fuel + 1) (c :: cs') notFirst
          = (match (wrapStep width notFirst (c :: cs')).1 with
             | some line => line ::
                 wrapChunksF width fuel (wrapStep width notFirst (c :: cs')).2 true
             | none =>
                 wrapChunksF width fuel (wrapStep width notFirst (c :: cs')).2
                   notFirst) from rfl] at hmem
      match hstep : (wrapStep width notFirst (c :: cs')).1 with
      | some l2 =>
        rw [hstep] at hmem
        rcases List.mem_cons.mp hmem with h | h
        · rw [h]
          exact wrapStep_line_le width hw notFirst (c :: cs') l2 hstep
        · exact ih _ _ line h
      | none =>
        rw [hstep] at hmem
        exact ih _ _ line hmem

/-- Every segment drawn by the text converter is at most 95 characters. -/
theorem renderSegs_le (txt : List Char) :
    ∀ seg ∈ renderSegs txt, seg.length ≤ 95 := by
  intro seg hmem
  unfold renderSegs at hmem
  rw [List.mem_flatMap] at hmem
  obtain ⟨line, -, hseg⟩ := hmem
  unfold wrapOrBlank at hseg
  by_cases hnil : pyWrap 95 line = []
  · rw [if_pos hnil] at hseg
    simp only [List.mem_singleton] at hseg
    rw [hseg]
    decide
  · rw [if_neg hnil] at hseg
    exact wrapChunksF_le 95 (by decide) _ _ _ seg hseg

/-- Tab expansion leaves no tab in the text. -/
theorem replaceTabs_no_tab (l : List Char) : '\t' ∉ replaceTabs l := by
  intro hmem
  unfold replaceTabs at hmem
  rw [List.mem_flatMap] at hmem
  obtain ⟨c, -, hc⟩ := hmem
  by_cases ht : c = '\t'
  · rw [if_pos ht] at hc
    simp at hc
  · rw [if_neg ht] at hc
    simp only [List.mem_singleton] at hc
    exact ht (hc ▸ rfl)

theorem replaceTabs_eq_self {l : List Char} (h : '\t' ∉ l) :
    replaceTabs l = l := by
  induction l with
  | nil => rfl
  | cons c rest ih =>
    have hc : c ≠ '\t' := fun hc => h (hc ▸ List.mem_cons_self c rest)
    have hrest : '\t' ∉ rest := fun hm => h (List.mem_cons_of_mem c hm)
    show (if c = '\t' then [' ', ' ', ' ', ' '] else [c])
        ++ replaceTabs rest = c :: rest
    rw [if_neg hc, ih hrest]
    rfl

theorem decodeUtf8IgnoreF_lf (fuel : Nat) :
    ∀ n : Nat, n < fuel →
      decodeUtf8IgnoreF fuel (List.replicate n 10)
        = List.replicate n '\n' := by
  induction fuel with
  | zero => intro n hn; omega
  | succ fuel ih =>
    intro n hn
    match n with
    | 0 => rfl
    | m + 1 =>
      rw [List.replicate_succ, List.replicate_succ]
      rw [show decodeUtf8IgnoreF (fuel + 1) (10 :: List.replicate m 10)
          = Char.ofNat 10 :: decodeUtf8IgnoreF fuel (List.replicate m 10)
          from rfl]
      rw [ih m (by omega)]

/-- Decoding a run of line-feed bytes yields the same run of `'\n'`. -/
theorem decode_replicate_lf (n : Nat) :
    decodeUtf8Ignore (List.replicate n 10) = List.replicate n '\n' := by
  unfold decodeUtf8Ignore
  rw [List.length_replicate]
  exact decodeUtf8IgnoreF_lf (n + 1) n (by omega)

theorem pySplitlinesF_lf (fuel : Nat) :
    ∀ n : Nat, n < fuel →
      pySplitlinesF fuel (List.replicate n '\n') = List.replicate n [] := by
  induction fuel with
  | zero => intro n hn; omega
  | succ fuel ih =>
    intro n hn
    match n with
    | 0 => rfl
    | m + 1 =>
      rw [List.replicate_succ, List.replicate_succ]
      rw [show pySplitlinesF (fuel + 1) ('\n' :: List.replicate m '\n')
          = [] :: pySplitlinesF fuel (List.replicate m '\n') from rfl]
      rw [ih m (by omega)]

/-- Applying `str.splitlines` to `n` line feeds returns `n` empty lines (no trailing
extra line). -/
theorem pySplitlines_replicate_lf (n : Nat) :
    pySplitlines (List.replicate n '\n') = List.replicate n [] := by
  unfold pySplitlines
  rw [List.length_replicate]
  exact pySplitlinesF_lf (n + 1) n (by omega)

theorem flatMap_replicate_nil (n : Nat) :
    (List.replicate n ([] : List Char)).flatMap (wrapOrBlank 95)
      = List.replicate n [' '] := by
  induction n with
  | zero => rfl
  | succ n ih =>
    rw [List.replicate_succ, List.replicate_succ, List.flatMap_cons, ih]
    rfl

/-- The drawing loop draws every segment exactly once: the page sizes sum to
the number of segments (plus whatever was already on the open page). -/
theorem layoutLoop_sum (segs : List (List Char)) :
    ∀ (y : ℚ) (cur : List (List Char)),
      ((layoutLoop segs y cur).map List.length).sum
        = segs.length + cur.length := by
  induction segs with
  | nil =>
    intro y cur
    unfold layoutLoop
    by_cases hcur : cur = []
    · rw [if_pos hcur, hcur]
      rfl
    · rw [if_neg hcur]
      simp
  | cons seg rest ih =>
    intro y cur
    unfold layoutLoop
    by_cases hy : y < 72
    · rw [if_pos hy]
      simp only [List.map_cons, List.sum_cons, ih]
      simp only [List.length_cons, List.length_singleton, List.length_nil]
      omega
    · rw [if_neg hy]
      rw [ih]
      simp only [List.length_cons, List.length_append,
        List.length_singleton, List.length_nil]
      omega

theorem textPages_sum (segs : List (List Char)) :
    ((textPages segs).map List.length).sum = segs.length := by
  unfold textPages
  rw [layoutLoop_sum]
  rfl

theorem textPages_ne_nil {segs : List (List Char)} (h : segs ≠ []) :
    textPages segs ≠ [] := by
  intro hnil
  have := textPages_sum segs
  rw [hnil] at this
  simp only [List.map_nil, List.sum_nil] at this
  exact h (List.length_eq_zero.mp this.symm)

/-- C9: the text converter decodes tolerantly (a total decode dropping
undecodable bytes — `renderSegs ∘ decodeUtf8Ignore` is defined on every byte
string), leaves no tab after replacing each tab by four spaces, wraps every
drawn segment to at most 95 columns, renders an empty input line as exactly
one blank segment and never collapses a line away; an input of `n ≥ 1` bare
line feeds yields at least one page and exactly `n` drawn segments. -/
theorem C9_text_converter :
    (∀ bytes : List Nat, ∀ seg ∈ renderSegs (decodeUtf8Ignore bytes),
      seg.length ≤ 95) ∧
    (∀ txt : List Char, '\t' ∉ replaceTabs txt) ∧
    (wrapOrBlank 95 [] = [[' ']]) ∧
    (∀ line : List Char, wrapOrBlank 95 line ≠ []) ∧
    (∀ n : Nat, 1 ≤ n →
      1 ≤ (convert_text_pages (List.replicate n 10)).length ∧
      ((convert_text_pages (List.replicate n 10)).map List.length).sum
        = n) := by
  refine ⟨?_, ?_, rfl, ?_, ?_⟩
  · intro bytes seg h
    exact renderSegs_le _ seg h
  · exact replaceTabs_no_tab
  · intro line
    unfold wrapOrBlank
    by_cases h : pyWrap 95 line = []
    · rw [if_pos h]
      simp
    · rw [if_neg h]
      exact h
  · intro n hn
    have hnotab : '\t' ∉ List.replicate n '\n' := by
      intro hmem
      rw [List.mem_replicate] at hmem
      exact absurd hmem.2 (by decide)
    have hsegs : renderSegs (decodeUtf8Ignore (List.replicate n 10))
        = List.replicate n [' '] := by
      rw [decode_replicate_lf]
      unfold renderSegs
      rw [replaceTabs_eq_self hnotab, pySplitlines_replicate_lf,
        flatMap_replicate_nil]
    unfold convert_text_pages
    rw [hsegs]
    constructor
    · have hne : (List.replicate n ([' '] : List Char)) ≠ [] := by
        intro hrep
        have := congrArg List.length hrep
        rw [List.length_replicate] at this
        simp at this
        omega
      exact List.length_pos.mpr (textPages_ne_nil hne)
    · rw [textPages_sum, List.length_replicate]

/-- Witness for `C9_text_converter`: a single blank line yields one page
holding one segment. -/
theorem C9_text_converter_witness :
    1 ≤ (convert_text_pages (List.replicate 1 10)).length ∧
    ((convert_text_pages (List.replicate 1 10)).map List.length).sum = 1 :=
  C9_text_converter.2.2.2.2 1 (by decide)

/-! ## The conversion worker (`CodyPDF._worker`, src lines 253-280)

The worker iterates `self.files` with `enumerate`, reading the live list and
the live `same_dir` flag at every iteration, and the live `merge` flag once
after the loop; the GUI thread may mutate these between reads.  An
environment therefore gives the value of each shared datum *at each read*:
`filesAt k` / `sameDirAt k` are the values when file `k` is processed
(`out_dir` is only written before the run starts, and `cwd` is the process
working directory).  Converter calls and the `PdfMerger` block are oracles:
an exception message or the produced/merged file's name.  A worker run
returns the emitted queue events in order, the final `produced` list, and
whether the thread died with an uncaught exception (which only the merge
block can raise — per-file exceptions are caught). -/

/-- Routing of one source file: its extension is in `HANDLERS`, is `.pdf`
(byte-copy pass-through), or unsupported. -/
inductive FileKind
  | handled
  | passthrough
  | unsupported
deriving DecidableEq, Repr

/-- A source file as the worker sees it. -/
structure SrcFile where
  /-- Python `src.name` -/
  name : String
  /-- Python `src.stem` -/
  stem : String
  /-- Python `str(src.parent)` -/
  parent : String
  kind : FileKind
deriving DecidableEq, Repr

/-- A produced PDF: its directory and file name. -/
structure PdfRef where
  dir : String
  name : String
deriving DecidableEq, Repr

/-- A queue message.  `done count dir` models
`("done", f"{len(produced)} PDF créés dans {final_dir}")`;
`progress idx` models `("progress", idx)` with the 1-based index. -/
inductive Event
  | progress (idx : Nat)
  | warn (msg : String)
  | error (msg : String)
  | info (msg : String)
  | done (count : Nat) (dir : String)
deriving DecidableEq, Repr

def isProgress : Event → Bool
  | .progress _ => true
  | _ => false

def isWarn : Event → Bool
  | .warn _ => true
  | _ => false

def isError : Event → Bool
  | .error _ => true
  | _ => false

def isInfo : Event → Bool
  | .info _ => true
  | _ => false

def isDone : Event → Bool
  | .done _ _ => true
  | _ => false

/-- The worker's environment: one value per read of each shared datum, plus
oracles for the external conversions and the merge. -/
structure WorkerEnv where
  /-- Value of `self.files` as read at iteration `k` -/
  filesAt : Nat → List SrcFile
  /-- Value of `self.same_dir.get()` as read at iteration `k` -/
  sameDirAt : Nat → Bool
  /-- Value of `self.out_dir` (written only before the run starts) -/
  outDir : Option String
  /-- Value of `self.merge.get()` at its single read after the loop -/
  mergeFlag : Bool
  /-- Outcome of `HANDLERS[ext](src, dest_dir)` (or of the `.pdf` byte
  copy): the produced file's name in `dest_dir`, or the raised message. -/
  convert : Nat → SrcFile → String → Except String String
  /-- Outcome of the `PdfMerger` block on the produced list: the merged
  file's name, or the raised message. -/
  mergeResult : List PdfRef → Except String String
  /-- Value of `Path.cwd()` -/
  cwd : String

/-- One iteration of the `for` body (src lines 256-268), except the
unconditional `progress` put: resolve `dest_dir` from the live flag, route
by extension, convert; exceptions (including the `TypeError` when `dest_dir`
is `None` because `same_dir` was toggled off mid-run) become one `error`
event; a router miss becomes one `warn` event. -/
def perFile (env : WorkerEnv) (k : Nat) (src : SrcFile) :
    List Event × List PdfRef :=
  let destDir? : Option String :=
    if env.sameDirAt k then some src.parent else env.outDir
  match src.kind, destDir? with
  | .unsupported, _ => ([Event.warn ("Format non pris : " ++ src.name)], [])
  | _, none =>
    ([Event.error (src.name ++ " : unsupported operand type")], [])
  | _, some d =>
    match env.convert k src d with
    | .ok n => ([], [⟨d, n⟩])
    | .error e => ([Event.error (src.name ++ " : " ++ e)], [])

/-- The `for idx, fp in enumerate(self.files, 1)` loop: the live list is
re-read each iteration (a CPython list iterator stops when the index reaches
the *current* length).  Fuel-based for kernel evaluability; for a constant
file list, fuel `length + 1` never runs out. -/
def workerLoop (env : WorkerEnv) : Nat → Nat → List Event × List PdfRef
  | 0, _ => ([], [])
  | fuel + 1, k =>
    match (env.filesAt k)[k]? with
    | some src =>
      let pf := perFile env k src
      let rest := workerLoop env fuel (k + 1)
      (pf.1 ++ [Event.progress (k + 1)] ++ rest.1, pf.2 ++ rest.2)
    | none => ([], [])

/-- Lines 270-280: the optional merge and the `done` summary.  The
`PdfMerger` block is not inside any `try`; if it raises, the exception
propagates and the worker thread dies without emitting `info` or `done`. -/
def workerFinalize (env : WorkerEnv) (produced : List PdfRef) :
    List Event × List PdfRef × Bool :=
  match produced with
  | [] => ([Event.done 0 (env.outDir.getD env.cwd)], [], false)
  | p :: rest =>
    if env.mergeFlag then
      match env.mergeResult (p :: rest) with
      | .error _ => ([], p :: rest, true)
      | .ok mname =>
        let produced2 := (p :: rest) ++ [⟨p.dir, mname⟩]
        ([Event.info ("Fusion : " ++ mname),
          Event.done produced2.length p.dir], produced2, false)
    else ([Event.done (p :: rest).length p.dir], p :: rest, false)

/-- The result of one worker run. -/
structure WorkerOut where
  events : List Event
  produced : List PdfRef
  /-- the worker thread died with an uncaught exception -/
  crashed : Bool
deriving DecidableEq, Repr

/-- Model of `CodyPDF._worker`, starting at index 0 with the given fuel. -/
def runWorker (env : WorkerEnv) (fuel : Nat) : WorkerOut :=
  let lp := workerLoop env fuel 0
  let fin := workerFinalize env lp.2
  ⟨lp.1 ++ fin.1, fin.2.1, fin.2.2⟩

/-- An environment in which no shared datum is mutated during the run: every
read returns the start-time value. -/
def constEnv (files : List SrcFile) (sameDir : Bool) (outDir : Option String)
    (mergeFlag : Bool) (convert : Nat → SrcFile → String → Except String String)
    (mergeResult : List PdfRef → Except String String) (cwd : String) :
    WorkerEnv :=
  ⟨fun _ => files, fun _ => sameDir, outDir, mergeFlag, convert, mergeResult,
    cwd⟩

/-- A worker run over an unmutated environment. -/
def runWorkerC (files : List SrcFile) (sameDir : Bool)
    (outDir : Option String) (mergeFlag : Bool)
    (convert : Nat → SrcFile → String → Except String String)
    (mergeResult : List PdfRef → Except String String) (cwd : String) :
    WorkerOut :=
  runWorker (constEnv files sameDir outDir mergeFlag convert mergeResult cwd)
    (files.length + 1)

/-! ### Properties of the worker -/

/-- The per-file events are one `warn`, one `error`, or nothing (besides the
unconditional `progress`). -/
theorem perFile_shape (env : WorkerEnv) (k : Nat) (src : SrcFile) :
    (perFile env k src).1 = [] ∨
    (∃ m, (perFile env k src).1 = [Event.warn m]) ∨
    (∃ m, (perFile env k src).1 = [Event.error m]) := by
  unfold perFile
  dsimp only
  split
  · right
    left
    exact ⟨_, rfl⟩
  · right
    right
    exact ⟨_, rfl⟩
  · split
    · left
      rfl
    · right
      right
      exact ⟨_, rfl⟩

/-- Each processed file contributes at most one `warn`/`error` event besides
its unconditional `progress`. -/
theorem perFile_events (env : WorkerEnv) (k : Nat) (src : SrcFile) :
    (perFile env k src).1.length ≤ 1 ∧
    ∀ e ∈ (perFile env k src).1, isWarn e = true ∨ isError e = true := by
  rcases perFile_shape env k src with h | ⟨m, h⟩ | ⟨m, h⟩ <;> rw [h]
  · exact ⟨by simp, by intro e he; simp at he⟩
  · refine ⟨by simp, ?_⟩
    intro e he
    simp only [List.mem_singleton] at he
    left
    rw [he]
    rfl
  · refine ⟨by simp, ?_⟩
    intro e he
    simp only [List.mem_singleton] at he
    right
    rw [he]
    rfl

theorem warn_not_done_info {e : Event} (h : isWarn e = true ∨ isError e = true) :
    isDone e = false ∧ isInfo e = false := by
  cases e <;> simp_all [isWarn, isError, isDone, isInfo]

theorem workerLoop_succ_some (env : WorkerEnv) (fuel k : Nat)
    (src : SrcFile) (h : (env.filesAt k)[k]? = some src) :
    workerLoop env (fuel + 1) k
      = ((perFile env k src).1 ++ [Event.progress (k + 1)]
          ++ (workerLoop env fuel (k + 1)).1,
        (perFile env k src).2 ++ (workerLoop env fuel (k + 1)).2) := by
  conv_lhs => rw [workerLoop]
  rw [h]

theorem workerLoop_succ_none (env : WorkerEnv) (fuel k : Nat)
    (h : (env.filesAt k)[k]? = none) :
    workerLoop env (fuel + 1) k = ([], []) := by
  conv_lhs => rw [workerLoop]
  rw [h]

/-- The per-file loop emits only `progress`, `warn` and `error` events:
no `done` and no `info`. -/
theorem workerLoop_no_done_info (env : WorkerEnv) :
    ∀ (fuel k : Nat), ∀ e ∈ (workerLoop env fuel k).1,
      isDone e = false ∧ isInfo e = false := by
  intro fuel
  induction fuel with
  | zero =>
    intro k e he
    exact absurd he (by simp [workerLoop])
  | succ fuel ih =>
    intro k e he
    cases hget : (env.filesAt k)[k]? with
    | some src =>
      rw [workerLoop_succ_some env fuel k src hget] at he
      simp only [List.append_assoc, List.mem_append,
        List.mem_singleton] at he
      rcases he with h1 | h1 | h1
      · exact warn_not_done_info
          ((perFile_events env k src).2 e h1)
      · rw [h1]
        exact ⟨rfl, rfl⟩
      · exact ih (k + 1) e h1
    | none =>
      rw [workerLoop_succ_none env fuel k hget] at he
      exact absurd he (by simp)

theorem workerLoop_countP_done (env : WorkerEnv) (fuel k : Nat) :
    (workerLoop env fuel k).1.countP isDone = 0 := by
  rw [List.countP_eq_zero]
  intro e he
  simp only [(workerLoop_no_done_info env fuel k e he).1]
  simp

theorem workerLoop_countP_info (env : WorkerEnv) (fuel k : Nat) :
    (workerLoop env fuel k).1.countP isInfo = 0 := by
  rw [List.countP_eq_zero]
  intro e he
  simp only [(workerLoop_no_done_info env fuel k e he).2]
  simp

theorem getLast?_append_singleton {α : Type} (l : List α) (x : α) :
    (l ++ [x]).getLast? = some x := by
  rw [List.getLast?_append_cons]
  rfl

theorem getLast?_append_pair {α : Type} (l : List α) (a b : α) :
    (l ++ [a, b]).getLast? = some b := by
  rw [show [a, b] = [a] ++ [b] from rfl, ← List.append_assoc]
  exact getLast?_append_singleton _ _

/-- C1 counterexample: a run that starts (non-empty file list, one
successful conversion) with merge requested, in which the `PdfMerger` block
raises: the uncaught exception kills the worker and no `done` event is ever
emitted. -/
theorem C1_no_done_when_merge_raises :
    ([⟨"a.png", "a", "s", FileKind.handled⟩] : List SrcFile) ≠ [] ∧
    (runWorkerC [⟨"a.png", "a", "s", FileKind.handled⟩] false (some "out")
        true (fun _ src _ => Except.ok (src.stem ++ ".pdf"))
        (fun _ => Except.error "EOF marker not found") "cwd").events.countP
      isDone = 0 ∧
    (runWorkerC [⟨"a.png", "a", "s", FileKind.handled⟩] false (some "out")
        true (fun _ src _ => Except.ok (src.stem ++ ".pdf"))
        (fun _ => Except.error "EOF marker not found") "cwd").crashed
      = true := by
  refine ⟨by decide, by decide, by decide⟩

theorem workerFinalize_nil (env : WorkerEnv) :
    workerFinalize env [] = ([Event.done 0 (env.outDir.getD env.cwd)], [],
      false) := rfl

theorem workerFinalize_cons (env : WorkerEnv) (p : PdfRef)
    (rest : List PdfRef) :
    workerFinalize env (p :: rest)
      = if env.mergeFlag then
          match env.mergeResult (p :: rest) with
          | Except.error _ => ([], p :: rest, true)
          | Except.ok mname =>
            ([Event.info ("Fusion : " ++ mname),
              Event.done ((p :: rest)
                ++ [(⟨p.dir, mname⟩ : PdfRef)]).length p.dir],
              (p :: rest) ++ [(⟨p.dir, mname⟩ : PdfRef)], false)
        else ([Event.done (p :: rest).length p.dir], p :: rest, false) := rfl

/-- C1 amended: in every run over an unmutated environment in which the
merge block does not raise (merge off, merge succeeding, or nothing produced
so the merge is skipped — in particular when every file failed), exactly one
`done` event is emitted and it is the last event of the run, after all
per-file outcomes and after the optional merge attempt. -/
theorem C1_done_event (files : List SrcFile) (sameDir : Bool)
    (outDir : Option String) (mergeFlag : Bool)
    (convert : Nat → SrcFile → String → Except String String)
    (mergeResult : List PdfRef → Except String String) (cwd : String)
    (hok : mergeFlag = false ∨
      (mergeResult ((workerLoop (constEnv files sameDir outDir mergeFlag
          convert mergeResult cwd) (files.length + 1) 0).2)).isOk = true ∨
      (workerLoop (constEnv files sameDir outDir mergeFlag convert
          mergeResult cwd) (files.length + 1) 0).2 = []) :
    (runWorkerC files sameDir outDir mergeFlag convert mergeResult
        cwd).events.countP isDone = 1 ∧
    (∃ c d, (runWorkerC files sameDir outDir mergeFlag convert mergeResult
        cwd).events.getLast? = some (Event.done c d)) ∧
    (runWorkerC files sameDir outDir mergeFlag convert mergeResult
        cwd).crashed = false := by
  set env := constEnv files sameDir outDir mergeFlag convert mergeResult cwd
    with henv
  set lp := workerLoop env (files.length + 1) 0 with hlp
  have hloop0 : lp.1.countP isDone = 0 :=
    workerLoop_countP_done env (files.length + 1) 0
  have hout : runWorkerC files sameDir outDir mergeFlag convert mergeResult
      cwd = ⟨lp.1 ++ (workerFinalize env lp.2).1,
        (workerFinalize env lp.2).2.1, (workerFinalize env lp.2).2.2⟩ := rfl
  rw [hout]
  match hprod : lp.2 with
  | [] =>
    rw [workerFinalize_nil]
    refine ⟨?_, ⟨0, env.outDir.getD env.cwd, ?_⟩, rfl⟩
    · rw [List.countP_append, hloop0]
      rfl
    · exact getLast?_append_singleton _ _
  | p :: rest =>
    rw [workerFinalize_cons]
    by_cases hm : env.mergeFlag = true
    · have hres : ∃ m, env.mergeResult (p :: rest) = Except.ok m := by
        rcases hok with h | h | h
        · rw [show env.mergeFlag = mergeFlag from rfl, h] at hm
          exact absurd hm (by decide)
        · rw [hprod] at h
          cases hres2 : env.mergeResult (p :: rest) with
          | ok m => exact ⟨m, rfl⟩
          | error e =>
            rw [show env.mergeResult = mergeResult from rfl] at hres2
            rw [hres2] at h
            exact Bool.noConfusion h
        · rw [hprod] at h
          exact absurd h (by simp)
      obtain ⟨m, hres⟩ := hres
      rw [if_pos hm, hres]
      refine ⟨?_, ⟨((p :: rest) ++ [(⟨p.dir, m⟩ : PdfRef)]).length, p.dir,
        ?_⟩, rfl⟩
      · rw [List.countP_append, hloop0]
        rfl
      · exact getLast?_append_pair _ _ _
    · rw [if_neg hm]
      refine ⟨?_, ⟨(p :: rest).length, p.dir, ?_⟩, rfl⟩
      · rw [List.countP_append, hloop0]
        rfl
      · exact getLast?_append_singleton _ _

/-- Witness for `C1_done_event`: a concrete merge-off run with one failing
file still ends in exactly one terminal `done`. -/
theorem C1_done_event_witness :
    (runWorkerC [⟨"a.png", "a", "s", FileKind.handled⟩] false (some "out")
        false (fun _ _ _ => Except.error "boom")
        (fun _ => Except.ok "m.pdf") "cwd").events.countP isDone = 1 ∧
    (∃ c d, (runWorkerC [⟨"a.png", "a", "s", FileKind.handled⟩] false
        (some "out") false (fun _ _ _ => Except.error "boom")
        (fun _ => Except.ok "m.pdf") "cwd").events.getLast?
      = some (Event.done c d)) ∧
    (runWorkerC [⟨"a.png", "a", "s", FileKind.handled⟩] false (some "out")
        false (fun _ _ _ => Except.error "boom")
        (fun _ => Except.ok "m.pdf") "cwd").crashed = false :=
  C1_done_event [⟨"a.png", "a", "s", FileKind.handled⟩] false (some "out")
    false (fun _ _ _ => Except.error "boom") (fun _ => Except.ok "m.pdf")
    "cwd" (Or.inl rfl)

/-- The worker loop over an unmutated file list, written as recursion over
the remaining files. -/
def loopSpec (env : WorkerEnv) : List SrcFile → Nat →
    List Event × List PdfRef
  | [], _ => ([], [])
  | src :: rest, k =>
    let pf := perFile env k src
    let r := loopSpec env rest (k + 1)
    (pf.1 ++ [Event.progress (k + 1)] ++ r.1, pf.2 ++ r.2)

/-- When the file list is never mutated, the live-list loop coincides with
plain recursion over the files. -/
theorem workerLoop_eq_loopSpec (env : WorkerEnv) (files : List SrcFile)
    (hf : ∀ k, env.filesAt k = files) :
    ∀ (fuel k : Nat), files.length ≤ k + fuel →
      workerLoop env fuel k = loopSpec env (files.drop k) k := by
  intro fuel
  induction fuel with
  | zero =>
    intro k hk
    rw [List.drop_eq_nil_of_le (by omega)]
    rfl
  | succ fuel ih =>
    intro k hk
    by_cases h : k < files.length
    · have hget : (env.filesAt k)[k]? = some (files.get ⟨k, h⟩) := by
        rw [hf k]
        exact List.getElem?_eq_getElem h
      rw [workerLoop_succ_some env fuel k _ hget]
      rw [ih (k + 1) (by omega)]
      rw [List.drop_eq_getElem_cons h]
      rfl
    · have hget : (env.filesAt k)[k]? = none := by
        rw [hf k]
        exact List.getElem?_eq_none (by omega)
      rw [workerLoop_succ_none env fuel k hget]
      rw [List.drop_eq_nil_of_le (by omega)]
      rfl

/-- The event groups of the loop: per file, its `warn`/`error` outcome
events followed by its unconditional `progress`. -/
def groupSpec (env : WorkerEnv) : List SrcFile → Nat → List (List Event)
  | [], _ => []
  | src :: rest, k =>
    ((perFile env k src).1 ++ [Event.progress (k + 1)])
      :: groupSpec env rest (k + 1)

theorem loopSpec_events_flatten (env : WorkerEnv) :
    ∀ (files : List SrcFile) (k : Nat),
      (loopSpec env files k).1 = (groupSpec env files k).flatten := by
  intro files
  induction files with
  | nil => intro k; rfl
  | cons src rest ih =>
    intro k
    show (perFile env k src).1 ++ [Event.progress (k + 1)]
        ++ (loopSpec env rest (k + 1)).1
      = ((perFile env k src).1 ++ [Event.progress (k + 1)])
        ++ (groupSpec env rest (k + 1)).flatten
    rw [ih (k + 1)]

theorem groupSpec_length (env : WorkerEnv) :
    ∀ (files : List SrcFile) (k : Nat),
      (groupSpec env files k).length = files.length := by
  intro files
  induction files with
  | nil => intro k; rfl
  | cons src rest ih =>
    intro k
    show (groupSpec env rest (k + 1)).length + 1 = rest.length + 1
    rw [ih (k + 1)]

theorem groupSpec_get_shape (env : WorkerEnv) :
    ∀ (files : List SrcFile) (k i : Nat)
      (hi : i < (groupSpec env files k).length),
      ∃ pre, (groupSpec env files k).get ⟨i, hi⟩
          = pre ++ [Event.progress (k + i + 1)] ∧
        pre.length ≤ 1 ∧ ∀ e ∈ pre, isWarn e = true ∨ isError e = true := by
  intro files
  induction files with
  | nil =>
    intro k i hi
    exact absurd hi (by simp [groupSpec])
  | cons src rest ih =>
    intro k i hi
    match i with
    | 0 =>
      exact ⟨(perFile env k src).1, rfl, (perFile_events env k src).1,
        (perFile_events env k src).2⟩
    | i + 1 =>
      have hi' : i < (groupSpec env rest (k + 1)).length := by
        rw [groupSpec_length] at hi ⊢
        simp only [List.length_cons] at hi
        omega
      obtain ⟨pre, h1, h2, h3⟩ := ih (k + 1) i hi'
      refine ⟨pre, ?_, h2, h3⟩
      rw [show (groupSpec env (src :: rest) k).get ⟨i + 1, hi⟩
          = (groupSpec env rest (k + 1)).get ⟨i, hi'⟩ from rfl, h1]
      have harith : k + 1 + i + 1 = k + (i + 1) + 1 := by omega
      rw [harith]

/-- The finalize step emits only `info` and `done`, each at most once. -/
theorem workerFinalize_events (env : WorkerEnv) (produced : List PdfRef) :
    (∀ e ∈ (workerFinalize env produced).1,
      isInfo e = true ∨ isDone e = true) ∧
    (workerFinalize env produced).1.countP isInfo ≤ 1 ∧
    (workerFinalize env produced).1.countP isDone ≤ 1 := by
  match produced with
  | [] =>
    rw [workerFinalize_nil]
    refine ⟨?_, ?_, ?_⟩
    · intro e he
      simp only [List.mem_singleton] at he
      right
      rw [he]
      rfl
    · simp [List.countP_cons, isInfo]
    · simp [List.countP_cons, isDone]
  | p :: rest =>
    rw [workerFinalize_cons]
    by_cases hm : env.mergeFlag = true
    · rw [if_pos hm]
      cases hres : env.mergeResult (p :: rest) with
      | error e =>
        refine ⟨?_, by simp, by simp⟩
        intro e he
        simp at he
      | ok m =>
        refine ⟨?_, ?_, ?_⟩
        · intro e he
          simp only [List.mem_cons, List.mem_singleton,
            List.not_mem_nil, or_false] at he
          rcases he with h | h
          · left
            rw [h]
            rfl
          · right
            rw [h]
            rfl
        · simp [List.countP_cons, isInfo, isDone]
        · simp [List.countP_cons, isInfo, isDone]
    · rw [if_neg hm]
      refine ⟨?_, ?_, ?_⟩
      · intro e he
        simp only [List.mem_singleton] at he
        right
        rw [he]
        rfl
      · simp [List.countP_cons, isInfo]
      · simp [List.countP_cons, isDone]

/-- C2 counterexample: `progress` is emitted for *every* file, not only on
success (line 268 sits outside the `try`).  A run over one unsupported file
emits both a `warn` and a `progress` for that file — two per-file events,
not "exactly one of progress, warning, or error". -/
theorem C2_progress_even_without_success :
    (runWorkerC [⟨"x.xyz", "x", "s", FileKind.unsupported⟩] false
        (some "out") false (fun _ _ _ => Except.ok "x.pdf")
        (fun _ => Except.ok "m.pdf") "cwd").events
      = [Event.warn "Format non pris : x.xyz", Event.progress 1,
         Event.done 0 "out"] ∧
    (runWorkerC [⟨"x.xyz", "x", "s", FileKind.unsupported⟩] false
        (some "out") false (fun _ _ _ => Except.ok "x.pdf")
        (fun _ => Except.ok "m.pdf") "cwd").events.countP
        (fun e => isProgress e || isWarn e || isError e) = 2 := by
  exact ⟨by decide, by decide⟩

/-- C2 amended: the events of a run over an unmutated environment are the
per-file groups in list order — for file `i` (0-based) at most one `warn`
(router miss) or `error` (conversion failure) event followed by one
unconditional `progress` event carrying the 1-based index — followed by at
most one `info` and at most one `done` event. -/
theorem C2_per_file_events (files : List SrcFile) (sameDir : Bool)
    (outDir : Option String) (mergeFlag : Bool)
    (convert : Nat → SrcFile → String → Except String String)
    (mergeResult : List PdfRef → Except String String) (cwd : String) :
    ∃ (groups : List (List Event)) (finalEvs : List Event),
      (runWorkerC files sameDir outDir mergeFlag convert mergeResult
        cwd).events = groups.flatten ++ finalEvs ∧
      groups.length = files.length ∧
      (∀ (i : Nat) (hi : i < groups.length), ∃ pre,
        groups.get ⟨i, hi⟩ = pre ++ [Event.progress (i + 1)] ∧
        pre.length ≤ 1 ∧
        ∀ e ∈ pre, isWarn e = true ∨ isError e = true) ∧
      (∀ e ∈ finalEvs, isInfo e = true ∨ isDone e = true) ∧
      finalEvs.countP isInfo ≤ 1 ∧ finalEvs.countP isDone ≤ 1 := by
  set env := constEnv files sameDir outDir mergeFlag convert mergeResult cwd
    with henv
  have hf : ∀ k, env.filesAt k = files := fun _ => rfl
  have hloop := workerLoop_eq_loopSpec env files hf (files.length + 1) 0
    (by omega)
  rw [List.drop_zero] at hloop
  refine ⟨groupSpec env files 0, (workerFinalize env
    (workerLoop env (files.length + 1) 0).2).1, ?_, ?_, ?_, ?_, ?_, ?_⟩
  · show (workerLoop env (files.length + 1) 0).1
        ++ (workerFinalize env (workerLoop env (files.length + 1) 0).2).1
      = _
    rw [hloop, loopSpec_events_flatten]
  · exact groupSpec_length env files 0
  · intro i hi
    obtain ⟨pre, h1, h2, h3⟩ := groupSpec_get_shape env files 0 i hi
    rw [Nat.zero_add] at h1
    exact ⟨pre, h1, h2, h3⟩
  · exact (workerFinalize_events env _).1
  · exact (workerFinalize_events env _).2.1
  · exact (workerFinalize_events env _).2.2

/-- Witness for `C2_per_file_events`: the structure holds on the concrete
run of `C2_progress_even_without_success`. -/
theorem C2_per_file_events_witness :
    ∃ (groups : List (List Event)) (finalEvs : List Event),
      (runWorkerC [⟨"x.xyz", "x", "s", FileKind.unsupported⟩] false
        (some "out") false (fun _ _ _ => Except.ok "x.pdf")
        (fun _ => Except.ok "m.pdf") "cwd").events
        = groups.flatten ++ finalEvs ∧
      groups.length
        = ([⟨"x.xyz", "x", "s", FileKind.unsupported⟩] :
            List SrcFile).length ∧
      (∀ (i : Nat) (hi : i < groups.length), ∃ pre,
        groups.get ⟨i, hi⟩ = pre ++ [Event.progress (i + 1)] ∧
        pre.length ≤ 1 ∧
        ∀ e ∈ pre, isWarn e = true ∨ isError e = true) ∧
      (∀ e ∈ finalEvs, isInfo e = true ∨ isDone e = true) ∧
      finalEvs.countP isInfo ≤ 1 ∧ finalEvs.countP isDone ≤ 1 :=
  C2_per_file_events [⟨"x.xyz", "x", "s", FileKind.unsupported⟩] false
    (some "out") false (fun _ _ _ => Except.ok "x.pdf")
    (fun _ => Except.ok "m.pdf") "cwd"

/-- C8 counterexample: a merging run with one produced PDF in which the
`PdfMerger` block raises: no `info` event is emitted (and no `done` either —
the worker dies), refuting "all produced PDFs are concatenated … and exactly
one info event names the merged file". -/
theorem C8_no_info_when_merge_raises :
    (runWorkerC [⟨"b.jpg", "b", "s", FileKind.handled⟩] false (some "o")
        true (fun _ src _ => Except.ok (src.stem ++ ".pdf"))
        (fun _ => Except.error "bad pdf") "c")
      = ⟨[Event.progress 1], [⟨"o", "b.pdf"⟩], true⟩ ∧
    (runWorkerC [⟨"b.jpg", "b", "s", FileKind.handled⟩] false (some "o")
        true (fun _ src _ => Except.ok (src.stem ++ ".pdf"))
        (fun _ => Except.error "bad pdf") "c").events.countP isInfo = 0 := by
  exact ⟨by decide, by decide⟩

/-- C8 amended: in a merging run over an unmutated environment, if nothing
was produced the merge is skipped (no `info`, `done` reports zero); if the
produced list is non-empty the `PdfMerger` receives exactly that list in
production order, and on success the merged file is created in the directory
of the first produced PDF, exactly one `info` names it, and the run
completes; if the merge raises, no `info` is emitted and the worker dies. -/
theorem C8_merge_step (files : List SrcFile) (sameDir : Bool)
    (outDir : Option String)
    (convert : Nat → SrcFile → String → Except String String)
    (mergeResult : List PdfRef → Except String String) (cwd : String) :
    ((workerLoop (constEnv files sameDir outDir true convert mergeResult
        cwd) (files.length + 1) 0).2 = [] →
      (runWorkerC files sameDir outDir true convert mergeResult
        cwd).events.countP isInfo = 0 ∧
      ∃ d, (runWorkerC files sameDir outDir true convert mergeResult
        cwd).events.getLast? = some (Event.done 0 d)) ∧
    (∀ (p : PdfRef) (rest : List PdfRef) (mname : String),
      (workerLoop (constEnv files sameDir outDir true convert mergeResult
        cwd) (files.length + 1) 0).2 = p :: rest →
      mergeResult (p :: rest) = Except.ok mname →
      (runWorkerC files sameDir outDir true convert mergeResult
        cwd).events.countP isInfo = 1 ∧
      Event.info ("Fusion : " ++ mname)
        ∈ (runWorkerC files sameDir outDir true convert mergeResult
          cwd).events ∧
      (runWorkerC files sameDir outDir true convert mergeResult
        cwd).produced = (p :: rest) ++ [⟨p.dir, mname⟩] ∧
      (runWorkerC files sameDir outDir true convert mergeResult
        cwd).crashed = false) ∧
    (∀ (p : PdfRef) (rest : List PdfRef) (e : String),
      (workerLoop (constEnv files sameDir outDir true convert mergeResult
        cwd) (files.length + 1) 0).2 = p :: rest →
      mergeResult (p :: rest) = Except.error e →
      (runWorkerC files sameDir outDir true convert mergeResult
        cwd).events.countP isInfo = 0 ∧
      (runWorkerC files sameDir outDir true convert mergeResult
        cwd).crashed = true) := by
  set env := constEnv files sameDir outDir true convert mergeResult cwd
    with henv
  set lp := workerLoop env (files.length + 1) 0 with hlp
  have hinfo0 : lp.1.countP isInfo = 0 :=
    workerLoop_countP_info env (files.length + 1) 0
  have hout : runWorkerC files sameDir outDir true convert mergeResult
      cwd = ⟨lp.1 ++ (workerFinalize env lp.2).1,
        (workerFinalize env lp.2).2.1, (workerFinalize env lp.2).2.2⟩ := rfl
  refine ⟨?_, ?_, ?_⟩
  · intro hprod
    rw [hout, hprod, workerFinalize_nil]
    refine ⟨?_, ⟨env.outDir.getD env.cwd, getLast?_append_singleton _ _⟩⟩
    rw [List.countP_append, hinfo0]
    rfl
  · intro p rest mname hprod hres
    rw [hout, hprod, workerFinalize_cons,
      if_pos (show env.mergeFlag = true from rfl),
      show env.mergeResult = mergeResult from rfl, hres]
    refine ⟨?_, ?_, rfl, rfl⟩
    · rw [List.countP_append, hinfo0]
      rfl
    · apply List.mem_append_right
      exact List.mem_cons_self _ _
  · intro p rest e hprod hres
    rw [hout, hprod, workerFinalize_cons,
      if_pos (show env.mergeFlag = true from rfl),
      show env.mergeResult = mergeResult from rfl, hres]
    refine ⟨?_, rfl⟩
    rw [List.countP_append, hinfo0]
    rfl

/-- Witness for `C8_merge_step`: a concrete two-file run merged
successfully. -/
theorem C8_merge_step_witness :
    (runWorkerC [⟨"a.png", "a", "s", FileKind.handled⟩,
        ⟨"b.docx", "b", "s", FileKind.handled⟩] false (some "o") true
        (fun _ src _ => Except.ok (src.stem ++ ".pdf"))
        (fun _ => Except.ok "merged_20240101_120000.pdf")
        "c").events.countP isInfo = 1 ∧
    Event.info ("Fusion : " ++ "merged_20240101_120000.pdf")
      ∈ (runWorkerC [⟨"a.png", "a", "s", FileKind.handled⟩,
          ⟨"b.docx", "b", "s", FileKind.handled⟩] false (some "o") true
          (fun _ src _ => Except.ok (src.stem ++ ".pdf"))
          (fun _ => Except.ok "merged_20240101_120000.pdf") "c").events ∧
    (runWorkerC [⟨"a.png", "a", "s", FileKind.handled⟩,
        ⟨"b.docx", "b", "s", FileKind.handled⟩] false (some "o") true
        (fun _ src _ => Except.ok (src.stem ++ ".pdf"))
        (fun _ => Except.ok "merged_20240101_120000.pdf") "c").produced
      = ([⟨"o", "a.pdf"⟩, ⟨"o", "b.pdf"⟩] : List PdfRef)
        ++ [⟨"o", "merged_20240101_120000.pdf"⟩] ∧
    (runWorkerC [⟨"a.png", "a", "s", FileKind.handled⟩,
        ⟨"b.docx", "b", "s", FileKind.handled⟩] false (some "o") true
        (fun _ src _ => Except.ok (src.stem ++ ".pdf"))
        (fun _ => Except.ok "merged_20240101_120000.pdf") "c").crashed
      = false :=
  (C8_merge_step [⟨"a.png", "a", "s", FileKind.handled⟩,
      ⟨"b.docx", "b", "s", FileKind.handled⟩] false (some "o")
      (fun _ src _ => Except.ok (src.stem ++ ".pdf"))
      (fun _ => Except.ok "merged_20240101_120000.pdf") "c").2.1
    ⟨"o", "a.pdf"⟩ [⟨"o", "b.pdf"⟩] "merged_20240101_120000.pdf"
    (by decide) rfl

/-- C10: after a successful merge the merged file is appended to `produced`
before the summary is computed (line 276 precedes line 280), so the `done`
event reports `k + 1` PDFs for `k` successful conversions: here
`rest.length + 2` for the `rest.length + 1` conversions in `p :: rest`. -/
theorem C10_done_counts_merged_file (files : List SrcFile) (sameDir : Bool)
    (outDir : Option String)
    (convert : Nat → SrcFile → String → Except String String)
    (mergeResult : List PdfRef → Except String String) (cwd : String)
    (p : PdfRef) (rest : List PdfRef) (mname : String)
    (hprod : (workerLoop (constEnv files sameDir outDir true convert
        mergeResult cwd) (files.length + 1) 0).2 = p :: rest)
    (hres : mergeResult (p :: rest) = Except.ok mname) :
    (runWorkerC files sameDir outDir true convert mergeResult
        cwd).events.getLast? = some (Event.done (rest.length + 2) p.dir) := by
  set env := constEnv files sameDir outDir true convert mergeResult cwd
    with henv
  set lp := workerLoop env (files.length + 1) 0 with hlp
  have hout : runWorkerC files sameDir outDir true convert mergeResult
      cwd = ⟨lp.1 ++ (workerFinalize env lp.2).1,
        (workerFinalize env lp.2).2.1, (workerFinalize env lp.2).2.2⟩ := rfl
  rw [hout, hprod, workerFinalize_cons,
    if_pos (show env.mergeFlag = true from rfl),
    show env.mergeResult = mergeResult from rfl, hres]
  have hlen : ((p :: rest) ++ [(⟨p.dir, mname⟩ : PdfRef)]).length
      = rest.length + 2 := by
    simp
  show (lp.1 ++ [Event.info ("Fusion : " ++ mname),
      Event.done ((p :: rest) ++ [(⟨p.dir, mname⟩ : PdfRef)]).length
        p.dir]).getLast?
    = some (Event.done (rest.length + 2) p.dir)
  rw [hlen]
  exact getLast?_append_pair _ _ _

/-- Witness for `C10_done_counts_merged_file`: one successful conversion
plus the merged file makes the `done` event report 2. -/
theorem C10_done_counts_merged_file_witness :
    (runWorkerC [⟨"a.png", "a", "s", FileKind.handled⟩] false (some "o")
        true (fun _ src _ => Except.ok (src.stem ++ ".pdf"))
        (fun _ => Except.ok "merged_20240101_120000.pdf")
        "c").events.getLast?
      = some (Event.done (([] : List PdfRef).length + 2)
          (PdfRef.dir ⟨"o", "a.pdf"⟩)) :=
  C10_done_counts_merged_file [⟨"a.png", "a", "s", FileKind.handled⟩] false
    (some "o") (fun _ src _ => Except.ok (src.stem ++ ".pdf"))
    (fun _ => Except.ok "merged_20240101_120000.pdf") "c"
    ⟨"o", "a.pdf"⟩ [] "merged_20240101_120000.pdf" (by decide) rfl

theorem perFile_congr (env env' : WorkerEnv) (k : Nat) (src : SrcFile)
    (h1 : env.sameDirAt k = env'.sameDirAt k)
    (h2 : env.outDir = env'.outDir) (h3 : env.convert = env'.convert) :
    perFile env k src = perFile env' k src := by
  unfold perFile
  rw [h1, h2, h3]

theorem workerFinalize_congr (env env' : WorkerEnv)
    (hm : env.mergeFlag = env'.mergeFlag)
    (hmr : env.mergeResult = env'.mergeResult)
    (hod : env.outDir = env'.outDir) (hcwd : env.cwd = env'.cwd) :
    ∀ produced, workerFinalize env produced
      = workerFinalize env' produced := by
  intro produced
  match produced with
  | [] => rw [workerFinalize_nil, workerFinalize_nil, hod, hcwd]
  | p :: rest =>
    rw [workerFinalize_cons, workerFinalize_cons, hm, hmr]

theorem workerLoop_congr (env env' : WorkerEnv)
    (hfiles : ∀ k, env.filesAt k = env'.filesAt k)
    (hsame : ∀ k, env.sameDirAt k = env'.sameDirAt k)
    (hout : env.outDir = env'.outDir) (hconv : env.convert = env'.convert) :
    ∀ (fuel k : Nat), workerLoop env fuel k = workerLoop env' fuel k := by
  intro fuel
  induction fuel with
  | zero => intro k; rfl
  | succ fuel ih =>
    intro k
    cases hget : (env.filesAt k)[k]? with
    | some src =>
      have hget' : (env'.filesAt k)[k]? = some src := by
        rw [← hfiles k]
        exact hget
      rw [workerLoop_succ_some env fuel k src hget,
        workerLoop_succ_some env' fuel k src hget', ih (k + 1),
        perFile_congr env env' k src (hsame k) hout hconv]
    | none =>
      have hget' : (env'.filesAt k)[k]? = none := by
        rw [← hfiles k]
        exact hget
      rw [workerLoop_succ_none env fuel k hget,
        workerLoop_succ_none env' fuel k hget']

/-- Start-time state shared by the two C5 runs: two handled files in
different source directories, output to a chosen directory, no merge. -/
def c5files : List SrcFile :=
  [⟨"a.txt", "a", "p0", FileKind.handled⟩,
   ⟨"b.txt", "b", "p1", FileKind.handled⟩]

def c5conv : Nat → SrcFile → String → Except String String :=
  fun _ src _ => Except.ok (src.stem ++ ".pdf")

/-- A run during which nothing is mutated. -/
def c5env1 : WorkerEnv :=
  ⟨fun _ => c5files, fun _ => false, some "out", false, c5conv,
    fun _ => Except.ok "m.pdf", "cwd"⟩

/-- The same start-time state, but `outputBesideSource` is toggled on by the
GUI thread after file 0 has been processed: the flag read for file 1
returns `true`. -/
def c5env2 : WorkerEnv :=
  ⟨fun _ => c5files, fun k => decide (k = 1), some "out", false, c5conv,
    fun _ => Except.ok "m.pdf", "cwd"⟩

/-- C5 counterexample: the worker does not operate on a snapshot — it reads
the live option flag at each file.  Two runs from the same start-time state
(same files, same flag values at start, same options and oracles), one of
which suffers a mid-run toggle of `outputBesideSource`, produce their PDFs
in different destination directories. -/
theorem C5_live_flag_changes_run :
    c5env1.filesAt 0 = c5env2.filesAt 0 ∧
    c5env1.sameDirAt 0 = c5env2.sameDirAt 0 ∧
    c5env1.outDir = c5env2.outDir ∧
    c5env1.mergeFlag = c5env2.mergeFlag ∧
    (runWorker c5env1 3).produced = [⟨"out", "a.pdf"⟩, ⟨"out", "b.pdf"⟩] ∧
    (runWorker c5env2 3).produced = [⟨"out", "a.pdf"⟩, ⟨"p1", "b.pdf"⟩] ∧
    (runWorker c5env1 3).produced ≠ (runWorker c5env2 3).produced := by
  refine ⟨rfl, rfl, rfl, rfl, by decide, by decide, by decide⟩

/-- C5 amended: the worker is deterministic in the *observed history* of the
shared state; when no mutation happens during the run (every read of the
file list and of the flag returns its start-time value), the run coincides
with the run over the frozen start-time state — so two unmutated runs from
the same start-time state process the same files into the same directories
with the same merge decision. -/
theorem C5_unmutated_run_deterministic (env : WorkerEnv) (fuel : Nat)
    (hf : ∀ k, env.filesAt k = env.filesAt 0)
    (hs : ∀ k, env.sameDirAt k = env.sameDirAt 0) :
    runWorker env fuel
      = runWorker (constEnv (env.filesAt 0) (env.sameDirAt 0) env.outDir
          env.mergeFlag env.convert env.mergeResult env.cwd) fuel := by
  set env' := constEnv (env.filesAt 0) (env.sameDirAt 0) env.outDir
    env.mergeFlag env.convert env.mergeResult env.cwd with henv'
  have hloop : workerLoop env fuel 0 = workerLoop env' fuel 0 :=
    workerLoop_congr env env' (fun k => hf k) (fun k => hs k) rfl rfl fuel 0
  show (⟨(workerLoop env fuel 0).1
      ++ (workerFinalize env (workerLoop env fuel 0).2).1,
    (workerFinalize env (workerLoop env fuel 0).2).2.1,
    (workerFinalize env (workerLoop env fuel 0).2).2.2⟩ : WorkerOut)
    = ⟨(workerLoop env' fuel 0).1
        ++ (workerFinalize env' (workerLoop env' fuel 0).2).1,
      (workerFinalize env' (workerLoop env' fuel 0).2).2.1,
      (workerFinalize env' (workerLoop env' fuel 0).2).2.2⟩
  rw [hloop, workerFinalize_congr env env' rfl rfl rfl rfl]

/-- Witness for `C5_unmutated_run_deterministic`: the unmutated run
`c5env1` equals the run over its frozen start state. -/
theorem C5_unmutated_run_deterministic_witness :
    runWorker c5env1 3
      = runWorker (constEnv (c5env1.filesAt 0) (c5env1.sameDirAt 0)
          c5env1.outDir c5env1.mergeFlag c5env1.convert c5env1.mergeResult
          c5env1.cwd) 3 :=
  C5_unmutated_run_deterministic c5env1 3 (fun _ => rfl) (fun _ => rfl)
